import Mathlib

/-!
Shallow embedding of the control-network data model of the isistools
repository, with proofs checking the claims of its specification
against the code.

Tables are modelled after pandas DataFrames: a table carries the list of
column names that are present, and one association list per row mapping
column names to cell values.  Cell values are modelled by `CVal`: floats
become exact rationals, the float NaN becomes the dedicated `nan`
constructor, and comparisons involving NaN are modelled as numpy
evaluates them (ordered comparisons false, truthiness true).
-/

namespace Isistools

/-- Cell value of a table: a rational standing for a float, the float
NaN, a string, or a boolean. -/
inductive CVal where
  | num (q : ℚ)
  | nan
  | str (s : String)
  | boolean (b : Bool)
deriving DecidableEq

/-- One table row: an association list from column name to cell value. -/
abbrev Row : Type := List (String × CVal)

/-- Reading a field from a row with a default, as `pandas.Series.get`
does for a row passed to `DataFrame.apply`. -/
def rowGet (r : Row) (c : String) (dflt : CVal) : CVal :=
  match r.find? (fun kv => kv.1 == c) with
  | some kv => kv.2
  | none => dflt

/-- Python truthiness of a cell value; the float NaN is truthy. -/
def truthy : CVal → Bool
  | .num q => decide (q ≠ 0)
  | .nan => true
  | .str s => decide (s ≠ "")
  | .boolean b => b

/-- Comparison `t <= v` as Python evaluates it on a cell: NaN and
non-numeric cells compare false, booleans count as 0 or 1. -/
def numGE (v : CVal) (t : ℚ) : Bool :=
  match v with
  | .num q => decide (t ≤ q)
  | .boolean b => decide (t ≤ (if b then (1 : ℚ) else 0))
  | _ => false

/-- Comparison `t < abs v` on a cell, false on NaN and non-numeric
cells. -/
def absGT (v : CVal) (t : ℚ) : Bool :=
  match v with
  | .num q => decide (t < |q|)
  | .boolean b => decide (t < (if b then (1 : ℚ) else 0))
  | _ => false

/-- The float literal `1e-10` of the classifier, as an exact rational. -/
def residualEps : ℚ := 1 / 10 ^ 10

/-- Embedding of `_classify_point_status` from `io/controlnet.py`:
classify one control-net measure into a display status. -/
def _classify_point_status (row : Row) : String :=
  if truthy (rowGet row "pointIgnore" (.boolean false)) ||
      truthy (rowGet row "measureIgnore" (.boolean false)) then "ignored"
  else if numGE (rowGet row "measureType" (.num 0)) 2 then "registered"
  else if absGT (rowGet row "residualSample" (.num 0)) residualEps ||
      absGT (rowGet row "residualLine" (.num 0)) residualEps then "registered"
  else "unregistered"

/-- Build a measurement row from five optional fields, covering every
combination of present and absent fields. -/
def mkRow (pIgn mIgn : Option Bool) (mType resS resL : Option ℚ) : Row :=
  (match pIgn with | some b => [("pointIgnore", CVal.boolean b)] | none => []) ++
  (match mIgn with | some b => [("measureIgnore", CVal.boolean b)] | none => []) ++
  (match mType with | some q => [("measureType", CVal.num q)] | none => []) ++
  (match resS with | some q => [("residualSample", CVal.num q)] | none => []) ++
  (match resL with | some q => [("residualLine", CVal.num q)] | none => [])

lemma mkRow_pointIgnore (pIgn mIgn : Option Bool) (mType resS resL : Option ℚ) :
    rowGet (mkRow pIgn mIgn mType resS resL) "pointIgnore" (.boolean false) =
      .boolean (pIgn.getD false) := by
  cases pIgn <;> cases mIgn <;> cases mType <;> cases resS <;> cases resL <;> rfl

lemma mkRow_measureIgnore (pIgn mIgn : Option Bool) (mType resS resL : Option ℚ) :
    rowGet (mkRow pIgn mIgn mType resS resL) "measureIgnore" (.boolean false) =
      .boolean (mIgn.getD false) := by
  cases pIgn <;> cases mIgn <;> cases mType <;> cases resS <;> cases resL <;> rfl

lemma mkRow_measureType (pIgn mIgn : Option Bool) (mType resS resL : Option ℚ) :
    rowGet (mkRow pIgn mIgn mType resS resL) "measureType" (.num 0) =
      .num (mType.getD 0) := by
  cases pIgn <;> cases mIgn <;> cases mType <;> cases resS <;> cases resL <;> rfl

lemma mkRow_residualSample (pIgn mIgn : Option Bool) (mType resS resL : Option ℚ) :
    rowGet (mkRow pIgn mIgn mType resS resL) "residualSample" (.num 0) =
      .num (resS.getD 0) := by
  cases pIgn <;> cases mIgn <;> cases mType <;> cases resS <;> cases resL <;> rfl

lemma mkRow_residualLine (pIgn mIgn : Option Bool) (mType resS resL : Option ℚ) :
    rowGet (mkRow pIgn mIgn mType resS resL) "residualLine" (.num 0) =
      .num (resL.getD 0) := by
  cases pIgn <;> cases mIgn <;> cases mType <;> cases resS <;> cases resL <;> rfl

/-- Claim C1: over any combination of present and absent fields, with a
missing field treated as false or zero, the classifier returns exactly
one of the three statuses, decided in priority order: ignore flags
first, then measure type at least 2 (the RegisteredPixel ordinal), then
a residual component exceeding 1e-10 in magnitude, and otherwise the
status is unregistered. -/
theorem claim1_classify_priority (pIgn mIgn : Option Bool)
    (mType resS resL : Option ℚ) :
    (_classify_point_status (mkRow pIgn mIgn mType resS resL) = "ignored" ∨
      _classify_point_status (mkRow pIgn mIgn mType resS resL) = "registered" ∨
      _classify_point_status (mkRow pIgn mIgn mType resS resL) = "unregistered") ∧
    (_classify_point_status (mkRow pIgn mIgn mType resS resL) = "ignored" ↔
      (pIgn.getD false = true ∨ mIgn.getD false = true)) ∧
    (¬ (pIgn.getD false = true ∨ mIgn.getD false = true) → 2 ≤ mType.getD 0 →
      _classify_point_status (mkRow pIgn mIgn mType resS resL) = "registered") ∧
    (¬ (pIgn.getD false = true ∨ mIgn.getD false = true) → mType.getD 0 < 2 →
      (residualEps < |resS.getD 0| ∨ residualEps < |resL.getD 0|) →
      _classify_point_status (mkRow pIgn mIgn mType resS resL) = "registered") ∧
    (¬ (pIgn.getD false = true ∨ mIgn.getD false = true) → mType.getD 0 < 2 →
      |resS.getD 0| ≤ residualEps → |resL.getD 0| ≤ residualEps →
      _classify_point_status (mkRow pIgn mIgn mType resS resL) = "unregistered") := by
  unfold _classify_point_status
  rw [mkRow_pointIgnore, mkRow_measureIgnore, mkRow_measureType,
    mkRow_residualSample, mkRow_residualLine]
  simp only [truthy, numGE, absGT, Bool.or_eq_true, decide_eq_true_eq]
  by_cases hp : pIgn.getD false = true <;>
    by_cases hm : mIgn.getD false = true <;>
    by_cases ht : (2 : ℚ) ≤ mType.getD 0 <;>
    by_cases hs : residualEps < |resS.getD 0| <;>
    by_cases hl : residualEps < |resL.getD 0| <;>
    simp [hp, hm, ht, hs, hl, not_le.mpr, le_of_not_lt]

/-- Witness for claim C1 at a concrete input: a row with only
`measureType = 2` present is classified as registered. -/
theorem claim1_classify_priority_witness :
    _classify_point_status (mkRow none none (some 2) none none) = "registered" :=
  (claim1_classify_priority none none (some 2) none none).2.2.1
    (by simp) (le_refl (2 : ℚ))

/-! ## First-occurrence deduplication, as `pandas.Series.unique` -/

/-- Helper for `unique`: drop elements already seen, keeping first
occurrences in order. -/
def uniqueAux {α : Type} [DecidableEq α] (seen : List α) : List α → List α
  | [] => []
  | x :: xs => if x ∈ seen then uniqueAux seen xs else x :: uniqueAux (x :: seen) xs

/-- Distinct values of a list in order of first occurrence, as the
pandas `unique` method returns them. -/
def unique {α : Type} [DecidableEq α] (l : List α) : List α := uniqueAux [] l

lemma mem_uniqueAux {α : Type} [DecidableEq α] {a : α} {seen l : List α} :
    a ∈ uniqueAux seen l ↔ a ∈ l ∧ a ∉ seen := by
  induction l generalizing seen with
  | nil => simp [uniqueAux]
  | cons x xs ih =>
    simp only [uniqueAux]
    by_cases hx : x ∈ seen
    · rw [if_pos hx, ih]
      constructor
      · rintro ⟨h1, h2⟩
        exact ⟨List.mem_cons_of_mem _ h1, h2⟩
      · rintro ⟨h1, h2⟩
        rcases List.mem_cons.mp h1 with rfl | h1
        · exact absurd hx h2
        · exact ⟨h1, h2⟩
    · rw [if_neg hx]
      constructor
      · intro hmem
        rcases List.mem_cons.mp hmem with rfl | hmem
        · exact ⟨List.mem_cons_self _ _, hx⟩
        · obtain ⟨h1, h2⟩ := ih.mp hmem
          exact ⟨List.mem_cons_of_mem _ h1, fun hs => h2 (List.mem_cons_of_mem _ hs)⟩
      · rintro ⟨h1, h2⟩
        rcases List.mem_cons.mp h1 with rfl | h1
        · exact List.mem_cons_self _ _
        · by_cases hax : a = x
          · subst hax; exact List.mem_cons_self _ _
          · exact List.mem_cons_of_mem _ (ih.mpr ⟨h1, fun hs =>
              (List.mem_cons.mp hs).elim hax h2⟩)

lemma mem_unique {α : Type} [DecidableEq α] {a : α} {l : List α} :
    a ∈ unique l ↔ a ∈ l := by
  simp [unique, mem_uniqueAux]

lemma nodup_uniqueAux {α : Type} [DecidableEq α] (seen l : List α) :
    (uniqueAux seen l).Nodup := by
  induction l generalizing seen with
  | nil => simp [uniqueAux]
  | cons x xs ih =>
    simp only [uniqueAux]
    by_cases hx : x ∈ seen
    · rw [if_pos hx]; exact ih seen
    · rw [if_neg hx]
      refine List.nodup_cons.mpr ⟨?_, ih (x :: seen)⟩
      intro hmem
      exact (mem_uniqueAux.mp hmem).2 (List.mem_cons_self x seen)

lemma nodup_unique {α : Type} [DecidableEq α] (l : List α) : (unique l).Nodup :=
  nodup_uniqueAux [] l

lemma uniqueAux_eq_nil {α : Type} [DecidableEq α] {seen l : List α}
    (h : ∀ x ∈ l, x ∈ seen) : uniqueAux seen l = [] := by
  induction l with
  | nil => rfl
  | cons x xs ih =>
    have hx : x ∈ seen := h x (List.mem_cons_self x xs)
    simp only [uniqueAux, if_pos hx]
    exact ih (fun y hy => h y (List.mem_cons_of_mem _ hy))

lemma unique_all_eq {α : Type} [DecidableEq α] {a : α} {l : List α}
    (hne : l ≠ []) (h : ∀ x ∈ l, x = a) : unique l = [a] := by
  cases l with
  | nil => exact absurd rfl hne
  | cons x xs =>
    have hxa : x = a := h x (List.mem_cons_self x xs)
    subst hxa
    show uniqueAux [] (x :: xs) = [x]
    rw [uniqueAux, if_neg (List.not_mem_nil x),
      uniqueAux_eq_nil (fun y hy => by
        rw [h y (List.mem_cons_of_mem _ hy)]
        exact List.mem_cons_self x [])]

/-! ## Table model and point aggregation (`plotting/cnet_overlay.py`) -/

/-- A measurement table: the list of present columns plus one row per
measure. -/
structure CDF where
  cols : List String
  rows : List Row
deriving DecidableEq

/-- Numeric reading of a cell, as pandas does in numeric reductions:
NaN and strings are skipped, booleans count as 0 or 1. -/
def toFloat : CVal → Option ℚ
  | .num q => some q
  | .boolean b => some (if b then 1 else 0)
  | _ => none

/-- Column mean with NaN skipped, as `Series.mean`; `none` models the
NaN result on an all-NaN or empty column. -/
def colMean (rows : List Row) (c : String) : Option ℚ :=
  let vs := (rows.map (fun r => rowGet r c .nan)).filterMap toFloat
  if vs.length = 0 then none else some (vs.sum / (vs.length : ℚ))

/-- Embedding of `_has_ground_coords`: does any candidate ground
coordinate column, when present, hold a value other than exact zero
anywhere in the table (NaN counts as such a value, as in numpy). -/
def _has_ground_coords (df : CDF) : Bool :=
  ["adjustedX", "adjustedLon", "aprioriX", "aprioriLon"].any (fun col =>
    df.cols.contains col && df.rows.any (fun r => !(rowGet r col .nan == .num 0)))

/-- First candidate column that is present in the table, as the
column-selection loops of `cnet_to_geodataframe`. -/
def selectCol (df : CDF) (cands : List String) : Option String :=
  cands.find? (fun c => df.cols.contains c)

/-- Rows of the group belonging to one point identifier, as
`groupby("pointId")` forms them. -/
def groupRows (df : CDF) (pid : CVal) : List Row :=
  df.rows.filter (fun r => rowGet r "pointId" .nan == pid)

/-- Embedding of the aggregate-status computation of
`cnet_to_geodataframe`: the distinct statuses of a group decide the
point status. -/
def _point_status (statuses : List CVal) : String :=
  if CVal.str "ignored" ∈ unique statuses ∧ (unique statuses).length = 1 then "ignored"
  else if CVal.str "registered" ∈ unique statuses then "registered"
  else "unregistered"

/-- One aggregated control point, as a record of the GeoDataFrame built
by `cnet_to_geodataframe`. -/
structure PointRec where
  pointId : CVal
  lon : ℚ
  lat : ℚ
  status : String
  n_measures : ℕ
  residual_magnitude : Option ℚ
deriving DecidableEq

/-- Per-point record construction loop of `cnet_to_geodataframe`: means
of the chosen columns, drop of the point on a NaN mean, aggregate
status, group size and mean residual.  Missing `status` or
`residual_magnitude` columns surface as the KeyError pandas raises. -/
def buildRecs (df : CDF) (lonc latc : String) : List CVal → Except String (List PointRec)
  | [] => .ok []
  | pid :: pids =>
    match colMean (groupRows df pid) lonc, colMean (groupRows df pid) latc with
    | some lon, some lat =>
      if df.cols.contains "status" then
        if df.cols.contains "residual_magnitude" then
          match buildRecs df lonc latc pids with
          | .ok recs =>
            .ok ({ pointId := pid, lon := lon, lat := lat,
                   status := _point_status
                       ((groupRows df pid).map (fun r => rowGet r "status" .nan)),
                   n_measures := (groupRows df pid).length,
                   residual_magnitude :=
                     colMean (groupRows df pid) "residual_magnitude" } :: recs)
          | .error e => .error e
        else .error "KeyError: residual_magnitude"
      else .error "KeyError: status"
    | _, _ => buildRecs df lonc latc pids

/-- Embedding of `cnet_to_geodataframe` on the path where the campt
fallback is not taken: pick the first present longitude and latitude
candidate columns, fail naming the available columns when either list
has no present column, then aggregate per point. -/
def cnet_to_geodataframe (df : CDF) : Except String (List PointRec) :=
  match selectCol df ["adjustedX", "adjustedLon", "aprioriX", "aprioriLon"],
      selectCol df ["adjustedY", "adjustedLat", "aprioriY", "aprioriLat"] with
  | some lonc, some latc =>
    if df.cols.contains "pointId" then
      buildRecs df lonc latc (unique (df.rows.map (fun r => rowGet r "pointId" .nan)))
    else .error "KeyError: pointId"
  | _, _ =>
    .error ("Cannot find longitude/latitude columns in control network. " ++
      "Available columns: " ++ toString df.cols)

lemma buildRecs_mem {df : CDF} {lonc latc : String} {pids : List CVal}
    {recs : List PointRec} (h : buildRecs df lonc latc pids = .ok recs) :
    ∀ rec ∈ recs, rec.pointId ∈ pids ∧
      some rec.lon = colMean (groupRows df rec.pointId) lonc ∧
      some rec.lat = colMean (groupRows df rec.pointId) latc ∧
      rec.status = _point_status
        ((groupRows df rec.pointId).map (fun r => rowGet r "status" .nan)) ∧
      rec.n_measures = (groupRows df rec.pointId).length ∧
      rec.residual_magnitude = colMean (groupRows df rec.pointId) "residual_magnitude" := by
  induction pids generalizing recs with
  | nil =>
    simp only [buildRecs] at h
    cases h
    intro rec hrec
    exact absurd hrec (List.not_mem_nil rec)
  | cons pid pids ih =>
    simp only [buildRecs] at h
    split at h
    · rename_i lon lat hlon hlat
      split at h
      · split at h
        · split at h
          · rename_i recs' htail
            cases h
            intro rec hrec
            rcases List.mem_cons.mp hrec with rfl | hmem
            · exact ⟨List.mem_cons_self _ _, hlon.symm, hlat.symm, rfl, rfl, rfl⟩
            · have := ih htail rec hmem
              exact ⟨List.mem_cons_of_mem _ this.1, this.2⟩
          · cases h
        · cases h
      · cases h
    · intro rec hrec
      have := ih h rec hrec
      exact ⟨List.mem_cons_of_mem _ this.1, this.2⟩

lemma buildRecs_ok_of_cols {df : CDF} {lonc latc : String}
    (hs : df.cols.contains "status" = true)
    (hr : df.cols.contains "residual_magnitude" = true) (pids : List CVal) :
    ∃ recs, buildRecs df lonc latc pids = .ok recs := by
  induction pids with
  | nil => exact ⟨[], rfl⟩
  | cons pid pids ih =>
    obtain ⟨recs, hrecs⟩ := ih
    simp only [buildRecs]
    cases colMean (groupRows df pid) lonc with
    | none => exact ⟨recs, hrecs⟩
    | some lon =>
      cases colMean (groupRows df pid) latc with
      | none => exact ⟨recs, hrecs⟩
      | some lat =>
        dsimp only
        rw [if_pos hs, if_pos hr, hrecs]
        exact ⟨_, rfl⟩

lemma selectCol_first {df : CDF} {pre post : List String} {c : String}
    (hc : df.cols.contains c = true)
    (hpre : ∀ b ∈ pre, df.cols.contains b = false) :
    selectCol df (pre ++ c :: post) = some c := by
  induction pre with
  | nil =>
    show List.find? (fun c => df.cols.contains c) (c :: post) = some c
    exact List.find?_cons_of_pos _ hc
  | cons b pre ih =>
    show List.find? (fun c => df.cols.contains c) (b :: (pre ++ c :: post)) = some c
    rw [List.find?_cons_of_neg _ (by
      rw [hpre b (List.mem_cons_self b pre)]; exact Bool.false_ne_true)]
    exact ih (fun x hx => hpre x (List.mem_cons_of_mem _ hx))

/-- Claim C2: the aggregate point status is ignored exactly when every
measurement of the group is ignored; otherwise it is registered exactly
when some measurement is registered; otherwise it is unregistered.  The
second conjunct ties the aggregation inside the point-building loop of
`cnet_to_geodataframe` to `_point_status` applied to the status column
of the group. -/
theorem claim2_aggregate_status :
    (∀ sts : List CVal, sts ≠ [] →
      ((_point_status sts = "ignored" ↔ ∀ s ∈ sts, s = CVal.str "ignored") ∧
       (¬ (∀ s ∈ sts, s = CVal.str "ignored") →
         (_point_status sts = "registered" ↔ CVal.str "registered" ∈ sts)) ∧
       (¬ (∀ s ∈ sts, s = CVal.str "ignored") → CVal.str "registered" ∉ sts →
         _point_status sts = "unregistered"))) ∧
    (∀ (df : CDF) (lonc latc : String) (pids : List CVal) (recs : List PointRec),
      buildRecs df lonc latc pids = .ok recs → ∀ rec ∈ recs,
        rec.status = _point_status
          ((groupRows df rec.pointId).map (fun r => rowGet r "status" .nan))) := by
  constructor
  · intro sts hne
    have hcond : (CVal.str "ignored" ∈ unique sts ∧ (unique sts).length = 1) ↔
        (∀ s ∈ sts, s = CVal.str "ignored") := by
      constructor
      · rintro ⟨hmem, hlen⟩
        obtain ⟨a, ha⟩ := List.length_eq_one.mp hlen
        rw [ha] at hmem
        intro s hs
        have hsu : s ∈ unique sts := mem_unique.mpr hs
        rw [ha] at hsu
        rw [List.mem_singleton.mp hsu, List.mem_singleton.mp hmem]
      · intro hall
        rw [unique_all_eq hne hall]
        exact ⟨List.mem_cons_self _ _, rfl⟩
    refine ⟨?_, ?_, ?_⟩
    · unfold _point_status
      by_cases hc : CVal.str "ignored" ∈ unique sts ∧ (unique sts).length = 1
      · rw [if_pos hc]
        exact iff_of_true rfl (hcond.mp hc)
      · rw [if_neg hc]
        constructor
        · intro heq
          by_cases hr : CVal.str "registered" ∈ unique sts
          · rw [if_pos hr] at heq
            exact absurd heq (by decide)
          · rw [if_neg hr] at heq
            exact absurd heq (by decide)
        · intro hall
          exact absurd (hcond.mpr hall) hc
    · intro hnall
      unfold _point_status
      rw [if_neg (fun hc => hnall (hcond.mp hc))]
      by_cases hr : CVal.str "registered" ∈ unique sts
      · rw [if_pos hr]
        exact iff_of_true rfl (mem_unique.mp hr)
      · rw [if_neg hr]
        constructor
        · intro heq
          exact absurd heq (by decide)
        · intro hmem
          exact absurd (mem_unique.mpr hmem) hr
    · intro hnall hnreg
      unfold _point_status
      rw [if_neg (fun hc => hnall (hcond.mp hc)),
        if_neg (fun hr => hnreg (mem_unique.mp hr))]
  · intro df lonc latc pids recs h rec hrec
    exact (buildRecs_mem h rec hrec).2.2.2.1

/-- Witness for claim C2 at a concrete group: a point whose measures
are one ignored and one unregistered aggregates to unregistered. -/
theorem claim2_aggregate_status_witness :
    _point_status [CVal.str "ignored", CVal.str "unregistered"] = "unregistered" :=
  ((claim2_aggregate_status.1 [CVal.str "ignored", CVal.str "unregistered"]
      (by decide)).2.2) (by decide) (by decide)

lemma buildRecs_single {df : CDF} {lonc latc : String} {pid : CVal}
    (hs : df.cols.contains "status" = true)
    (hr : df.cols.contains "residual_magnitude" = true)
    {lon lat : ℚ}
    (hlon : colMean (groupRows df pid) lonc = some lon)
    (hlat : colMean (groupRows df pid) latc = some lat) :
    buildRecs df lonc latc [pid] =
      .ok [{ pointId := pid, lon := lon, lat := lat,
             status := _point_status
               ((groupRows df pid).map (fun r => rowGet r "status" .nan)),
             n_measures := (groupRows df pid).length,
             residual_magnitude := colMean (groupRows df pid) "residual_magnitude" }] := by
  simp only [buildRecs]
  rw [hlon, hlat]
  dsimp only
  rw [if_pos hs, if_pos hr]

/-- Selection rule exactly as claim C3 words it: the first of the four
ground-coordinate pairs in which at least one present column holds a
value other than zero somewhere in the table. -/
def claimPairSelection (df : CDF) : Option (String × String) :=
  [("adjustedX", "adjustedY"), ("adjustedLon", "adjustedLat"),
   ("aprioriX", "aprioriY"), ("aprioriLon", "aprioriLat")].find? (fun pr =>
    (df.cols.contains pr.1 && df.rows.any (fun r => !(rowGet r pr.1 .nan == .num 0))) ||
    (df.cols.contains pr.2 && df.rows.any (fun r => !(rowGet r pr.2 .nan == .num 0))))

/-- Single-row table whose adjusted body-fixed pair is present but all
zero while the apriori lon/lat pair carries real values. -/
def exRow3 : Row :=
  [("pointId", .str "P1"), ("status", .str "unregistered"),
   ("residual_magnitude", .num 0), ("adjustedX", .num 0), ("adjustedY", .num 0),
   ("aprioriLon", .num 5), ("aprioriLat", .num 6)]

/-- Table for the claim C3 counterexample. -/
def exDF3 : CDF :=
  ⟨["pointId", "status", "residual_magnitude", "adjustedX", "adjustedY",
    "aprioriLon", "aprioriLat"], [exRow3]⟩

/-- The point record the code produces from `exDF3`. -/
def rec3 : PointRec :=
  { pointId := .str "P1", lon := 0, lat := 0, status := "unregistered",
    n_measures := 1, residual_magnitude := some 0 }

/-- Counterexample to claim C3 as stated: on `exDF3` the rule of the
claim picks the apriori lon/lat pair (the first pair with a non-zero
present column, mean longitude 5), but the code picks the first present
columns `adjustedX`/`adjustedY` regardless of values and returns the
point at (0, 0). -/
theorem claim3_counterexample :
    claimPairSelection exDF3 = some ("aprioriLon", "aprioriLat") ∧
    colMean (groupRows exDF3 (.str "P1")) "aprioriLon" = some 5 ∧
    cnet_to_geodataframe exDF3 = .ok [rec3] ∧ rec3.lon = 0 := by
  refine ⟨by decide, ?_, ?_, rfl⟩
  · show colMean [exRow3] "aprioriLon" = some 5
    simp [colMean, exRow3, rowGet, toFloat]
  · have hg : groupRows exDF3 (CVal.str "P1") = [exRow3] := by decide
    have hlon : colMean (groupRows exDF3 (CVal.str "P1")) "adjustedX" = some 0 := by
      rw [hg]; simp [colMean, exRow3, rowGet, toFloat]
    have hlat : colMean (groupRows exDF3 (CVal.str "P1")) "adjustedY" = some 0 := by
      rw [hg]; simp [colMean, exRow3, rowGet, toFloat]
    show buildRecs exDF3 "adjustedX" "adjustedY" [CVal.str "P1"] = _
    rw [buildRecs_single (by decide) (by decide) hlon hlat, hg]
    simp [colMean, exRow3, rowGet, toFloat, _point_status, unique, uniqueAux, rec3]

/-- Claim C3 (amended): the to-points path without fallback selects the
longitude column as the first present candidate among adjustedX,
adjustedLon, aprioriX, aprioriLon, and independently the latitude
column as the first present candidate among adjustedY, adjustedLat,
aprioriY, aprioriLat, regardless of the values the columns hold; the
per-point coordinate is then the NaN-skipping mean of the two chosen
columns over the rows of the point. -/
theorem claim3_column_selection_amended :
    (∀ (df : CDF) (pre : List String) (c : String) (post cands : List String),
      cands = pre ++ c :: post → df.cols.contains c = true →
      (∀ b ∈ pre, df.cols.contains b = false) → selectCol df cands = some c) ∧
    (∀ (df : CDF) (lonc latc : String) (recs : List PointRec),
      selectCol df ["adjustedX", "adjustedLon", "aprioriX", "aprioriLon"] = some lonc →
      selectCol df ["adjustedY", "adjustedLat", "aprioriY", "aprioriLat"] = some latc →
      df.cols.contains "pointId" = true →
      cnet_to_geodataframe df = .ok recs →
      ∀ rec ∈ recs,
        some rec.lon = colMean (groupRows df rec.pointId) lonc ∧
        some rec.lat = colMean (groupRows df rec.pointId) latc) := by
  constructor
  · rintro df pre c post cands rfl hc hpre
    exact selectCol_first hc hpre
  · intro df lonc latc recs hlon hlat hpid h rec hrec
    unfold cnet_to_geodataframe at h
    rw [hlon, hlat] at h
    dsimp only at h
    rw [if_pos hpid] at h
    exact ⟨(buildRecs_mem h rec hrec).2.1, (buildRecs_mem h rec hrec).2.2.1⟩

/-- Witness for claim C3 (amended) at the concrete table `exDF3`: the
record built there takes its longitude from the mean of the all-zero
`adjustedX` column. -/
theorem claim3_column_selection_amended_witness :
    some rec3.lon = colMean (groupRows exDF3 rec3.pointId) "adjustedX" := by
  refine ((claim3_column_selection_amended.2 exDF3 "adjustedX" "adjustedY"
      [rec3] (by decide) (by decide) (by decide) ?_)
    _ (List.mem_cons_self _ _)).1
  have hg : groupRows exDF3 (CVal.str "P1") = [exRow3] := by decide
  have hlon : colMean (groupRows exDF3 (CVal.str "P1")) "adjustedX" = some 0 := by
    rw [hg]; simp [colMean, exRow3, rowGet, toFloat]
  have hlat : colMean (groupRows exDF3 (CVal.str "P1")) "adjustedY" = some 0 := by
    rw [hg]; simp [colMean, exRow3, rowGet, toFloat]
  show buildRecs exDF3 "adjustedX" "adjustedY" [CVal.str "P1"] = _
  rw [buildRecs_single (by decide) (by decide) hlon hlat, hg]
  simp [colMean, exRow3, rowGet, toFloat, _point_status, unique, uniqueAux, rec3]

/-- Single-row table whose only ground-coordinate pair is present but
entirely zero. -/
def exRow9 : Row :=
  [("pointId", .str "P1"), ("status", .str "unregistered"),
   ("residual_magnitude", .num 0), ("adjustedX", .num 0), ("adjustedY", .num 0)]

/-- Table for the claim C9 counterexample. -/
def exDF9 : CDF :=
  ⟨["pointId", "status", "residual_magnitude", "adjustedX", "adjustedY"], [exRow9]⟩

/-- The point record the code produces from `exDF9`. -/
def rec9 : PointRec :=
  { pointId := .str "P1", lon := 0, lat := 0, status := "unregistered",
    n_measures := 1, residual_magnitude := some 0 }

/-- Counterexample to claim C9 as stated: `exDF9` has no non-zero ground
coordinates in the sense of `_has_ground_coords`, yet the conversion
without image paths succeeds at (0, 0) instead of failing with the
invalid-input error. -/
theorem claim9_counterexample :
    _has_ground_coords exDF9 = false ∧
    cnet_to_geodataframe exDF9 = .ok [rec9] := by
  refine ⟨by decide, ?_⟩
  have hg : groupRows exDF9 (CVal.str "P1") = [exRow9] := by decide
  have hlon : colMean (groupRows exDF9 (CVal.str "P1")) "adjustedX" = some 0 := by
    rw [hg]; simp [colMean, exRow9, rowGet, toFloat]
  have hlat : colMean (groupRows exDF9 (CVal.str "P1")) "adjustedY" = some 0 := by
    rw [hg]; simp [colMean, exRow9, rowGet, toFloat]
  show buildRecs exDF9 "adjustedX" "adjustedY" [CVal.str "P1"] = _
  rw [buildRecs_single (by decide) (by decide) hlon hlat, hg]
  simp [colMean, exRow9, rowGet, toFloat, _point_status, unique, uniqueAux, rec9]

/-- Claim C9 (amended): with the canonical derived columns present, the
no-fallback conversion fails if and only if no longitude candidate
column or no latitude candidate column is present in the table — the
values held by present columns are irrelevant — and the error message
then names the available columns. -/
theorem claim9_missing_columns_amended (df : CDF)
    (hpid : df.cols.contains "pointId" = true)
    (hs : df.cols.contains "status" = true)
    (hr : df.cols.contains "residual_magnitude" = true) :
    ((∃ e, cnet_to_geodataframe df = .error e) ↔
      (selectCol df ["adjustedX", "adjustedLon", "aprioriX", "aprioriLon"] = none ∨
       selectCol df ["adjustedY", "adjustedLat", "aprioriY", "aprioriLat"] = none)) ∧
    (∀ e, cnet_to_geodataframe df = .error e →
      e = "Cannot find longitude/latitude columns in control network. " ++
        "Available columns: " ++ toString df.cols) := by
  unfold cnet_to_geodataframe
  cases hlon : selectCol df ["adjustedX", "adjustedLon", "aprioriX", "aprioriLon"] with
  | none =>
    cases hlat : selectCol df ["adjustedY", "adjustedLat", "aprioriY", "aprioriLat"] with
    | none => exact ⟨by simp, by intro e he; exact (Except.error.injEq _ _).mp he.symm⟩
    | some latc => exact ⟨by simp, by intro e he; exact (Except.error.injEq _ _).mp he.symm⟩
  | some lonc =>
    cases hlat : selectCol df ["adjustedY", "adjustedLat", "aprioriY", "aprioriLat"] with
    | none => exact ⟨by simp, by intro e he; exact (Except.error.injEq _ _).mp he.symm⟩
    | some latc =>
      dsimp only
      rw [if_pos hpid]
      obtain ⟨recs, hrecs⟩ := buildRecs_ok_of_cols hs hr
        (unique (df.rows.map (fun r => rowGet r "pointId" .nan)))
      rw [hrecs]
      exact ⟨by simp, by intro e he; cases he⟩

/-- Witness for claim C9 (amended) at a concrete table: a table with the
canonical columns but no coordinate candidate columns fails. -/
theorem claim9_missing_columns_amended_witness :
    ∃ e, cnet_to_geodataframe
      ⟨["pointId", "status", "residual_magnitude"], []⟩ = .error e :=
  (claim9_missing_columns_amended ⟨["pointId", "status", "residual_magnitude"], []⟩
    (by decide) (by decide) (by decide)).1.mpr (Or.inl (by decide))

/-! ## Summary reducer (`cnet_summary` in `io/controlnet.py`) -/

/-- Column extraction as `df[c]`: the KeyError pandas raises on a
missing column becomes an error result. -/
def dfCol (df : CDF) (c : String) : Except String (List CVal) :=
  if df.cols.contains c then .ok (df.rows.map (fun r => rowGet r c .nan))
  else .error ("KeyError: " ++ c)

/-- Count of distinct non-NaN values, as `Series.nunique`. -/
def nuniqueDropNa (vs : List CVal) : ℕ :=
  (unique (vs.filter (fun v => !(v == CVal.nan)))).length

/-- Mean over a value column with NaN skipped, as `Series.mean`; `none`
models the NaN result on an empty or all-NaN column. -/
def valsMean (vs : List CVal) : Option ℚ :=
  let qs := vs.filterMap toFloat
  if qs.length = 0 then none else some (qs.sum / (qs.length : ℚ))

/-- Max over a value column with NaN skipped, as `Series.max`. -/
def valsMax (vs : List CVal) : Option ℚ := (vs.filterMap toFloat).max?

/-- Result record of `cnet_summary`. -/
structure CnetSummary where
  n_points : ℕ
  n_measures : ℕ
  n_images : ℕ
  n_registered : ℕ
  n_unregistered : ℕ
  n_ignored : ℕ
  mean_residual : Option ℚ
  max_residual : Option ℚ
deriving DecidableEq

/-- The all-zero summary of an empty table. -/
def zeroSummary : CnetSummary :=
  { n_points := 0, n_measures := 0, n_images := 0, n_registered := 0,
    n_unregistered := 0, n_ignored := 0, mean_residual := none,
    max_residual := none }

/-- Embedding of `cnet_summary` from `io/controlnet.py`: the distinct
counts of `pointId` and `serialnumber` are guarded by column presence,
while the accesses to `status` and `residual_magnitude` are unguarded
and surface the KeyError of pandas when the column is missing. -/
def cnet_summary (df : CDF) : Except String CnetSummary :=
  match dfCol df "status" with
  | .error e => .error e
  | .ok status =>
    match dfCol df "residual_magnitude" with
    | .error e => .error e
    | .ok res =>
      .ok { n_points := if df.cols.contains "pointId" then
              nuniqueDropNa (df.rows.map (fun r => rowGet r "pointId" .nan)) else 0,
            n_measures := df.rows.length,
            n_images := if df.cols.contains "serialnumber" then
              nuniqueDropNa (df.rows.map (fun r => rowGet r "serialnumber" .nan)) else 0,
            n_registered := (status.filter (fun v => v == CVal.str "registered")).length,
            n_unregistered := (status.filter (fun v => v == CVal.str "unregistered")).length,
            n_ignored := (status.filter (fun v => v == CVal.str "ignored")).length,
            mean_residual := valsMean res,
            max_residual := valsMax res }

/-- Counterexample to claim C6 as stated: on an empty table with no
columns at all, `cnet_summary` fails with the KeyError of the unguarded
`status` access instead of returning zero counts. -/
theorem claim6_counterexample :
    cnet_summary ⟨[], []⟩ = .error "KeyError: status" := rfl

/-- Claim C6 (amended): on every empty table carrying the `status` and
`residual_magnitude` columns, `cnet_summary` succeeds with all six
counts zero and NaN residual aggregates; an empty table missing the
`status` column instead fails with the KeyError naming it. -/
theorem claim6_empty_summary_amended (df : CDF) (hrows : df.rows = [])
    (hs : df.cols.contains "status" = true)
    (hr : df.cols.contains "residual_magnitude" = true) :
    cnet_summary df = .ok zeroSummary ∧
    (∀ df2 : CDF, df2.cols.contains "status" = false →
      cnet_summary df2 = .error "KeyError: status") := by
  constructor
  · have h1 : dfCol df "status" = .ok [] := by
      unfold dfCol; rw [if_pos hs, hrows]; rfl
    have h2 : dfCol df "residual_magnitude" = .ok [] := by
      unfold dfCol; rw [if_pos hr, hrows]; rfl
    unfold cnet_summary
    rw [h1, h2]
    dsimp only
    simp [hrows, nuniqueDropNa, valsMean, valsMax, unique, uniqueAux, zeroSummary]
  · intro df2 hns
    have h1 : dfCol df2 "status" = .error "KeyError: status" := by
      unfold dfCol
      rw [if_neg (by rw [hns]; exact Bool.false_ne_true)]
      rfl
    unfold cnet_summary
    rw [h1]

/-- Witness for claim C6 (amended) at a concrete empty table with the
canonical derived columns. -/
theorem claim6_empty_summary_amended_witness :
    cnet_summary ⟨["status", "residual_magnitude"], []⟩ = .ok zeroSummary :=
  (claim6_empty_summary_amended ⟨["status", "residual_magnitude"], []⟩
    rfl (by decide) (by decide)).1

/-! ## Loader and cache (`load_cnet` in `io/controlnet.py`) -/

/-- Rename map applied to the reader column names `id`,
`sampleResidual` and `lineResidual`. -/
def renameCol (c : String) : String :=
  if c == "id" then "pointId"
  else if c == "sampleResidual" then "residualSample"
  else if c == "lineResidual" then "residualLine"
  else c

/-- Canonical column set kept by the loader. -/
def keepCols : List String :=
  ["pointId", "serialnumber", "sample", "line",
   "residualSample", "residualLine", "residual_magnitude",
   "measureType", "pointType", "pointIgnore", "measureIgnore", "status",
   "adjustedX", "adjustedY", "adjustedLon", "adjustedLat",
   "aprioriX", "aprioriY", "aprioriLon", "aprioriLat"]

/-- Reading of one residual cell as
`df.get(col, zeros).fillna(0.0).astype(float)` sees it: a missing
column or a NaN cell reads as zero. -/
def resVal (cols : List String) (r : Row) (c : String) : ℚ :=
  if cols.contains c then
    match toFloat (rowGet r c .nan) with
    | some q => q
    | none => 0
  else 0

/-- Post-processing pipeline of `load_cnet` after the raw read: rename
the reader columns, add the residual magnitude through the float hypot
function (abstracted as a parameter), classify the status row-wise,
then keep only the canonical columns. -/
def process_cnet (hyp : ℚ → ℚ → ℚ) (raw : CDF) : CDF :=
  let cols1 := raw.cols.map renameCol
  let rows1 := raw.rows.map (fun r => r.map (fun kv => (renameCol kv.1, kv.2)))
  let rows2 := rows1.map (fun r =>
    r ++ [("residual_magnitude",
      CVal.num (hyp (resVal cols1 r "residualSample") (resVal cols1 r "residualLine")))])
  let rows3 := rows2.map (fun r => r ++ [("status", CVal.str (_classify_point_status r))])
  let cols3 := (cols1 ++ ["residual_magnitude"]) ++ ["status"]
  let keep := keepCols.filter (fun c => cols3.contains c)
  ⟨keep, rows3.map (fun r => keep.map (fun c => (c, rowGet r c .nan)))⟩

/-- Cache key of `load_cnet`, built from the path and the modification
time exactly as the formatted string in the source. -/
def cacheKey (path : String) (mtime : ℤ) : String :=
  "cnet:" ++ path ++ ":" ++ toString mtime

/-- Embedding of `load_cnet`: the filesystem maps a path to its
modification time and the raw reader table (so a cache hit bypasses the
reader); the cache is an association list.  The boolean in the result
records whether the raw binary reader ran; the third component is the
cache state after the call. -/
def load_cnet (hyp : ℚ → ℚ → ℚ) (fs : String → Option (ℤ × CDF))
    (cache : List (String × CDF)) (path : String) :
    Except String (CDF × Bool × List (String × CDF)) :=
  match fs path with
  | none => .error ("Control network not found: " ++ path)
  | some (mtime, raw) =>
    match cache.lookup (cacheKey path mtime) with
    | some cached => .ok (cached, false, cache)
    | none =>
      let df := process_cnet hyp raw
      .ok (df, true, (cacheKey path mtime, df) :: cache)

/-- Claim C8: loading an existing file twice with unchanged modification
time returns, on the second call, a table structurally identical to the
first result, taken verbatim from the cache without running the raw
reader, and leaves the cache unchanged. -/
theorem claim8_cache_hit (hyp : ℚ → ℚ → ℚ) (fs : String → Option (ℤ × CDF))
    (cache : List (String × CDF)) (path : String) (mtime : ℤ) (raw : CDF)
    (hfs : fs path = some (mtime, raw)) :
    ∃ df called c1,
      load_cnet hyp fs cache path = .ok (df, called, c1) ∧
      load_cnet hyp fs c1 path = .ok (df, false, c1) := by
  unfold load_cnet
  rw [hfs]
  dsimp only
  cases hlk : cache.lookup (cacheKey path mtime) with
  | some cached =>
    exact ⟨cached, false, cache, rfl, by rw [hlk]⟩
  | none =>
    refine ⟨process_cnet hyp raw, true,
      (cacheKey path mtime, process_cnet hyp raw) :: cache, rfl, ?_⟩
    simp [List.lookup]

/-- Raw reader table for the claim C8 witness. -/
def exRaw8 : CDF :=
  ⟨["id", "serialnumber"], [[("id", .str "P1"), ("serialnumber", .str "S1")]]⟩

/-- Filesystem for the claim C8 witness: one network file with
modification time 7. -/
def exFS8 : String → Option (ℤ × CDF) :=
  fun p => if p == "net.net" then some (7, exRaw8) else none

/-- Witness for claim C8 at a concrete filesystem, starting from the
empty cache. -/
theorem claim8_cache_hit_witness :
    ∃ df called c1,
      load_cnet (fun a _ => a) exFS8 [] "net.net" = .ok (df, called, c1) ∧
      load_cnet (fun a _ => a) exFS8 c1 "net.net" = .ok (df, false, c1) :=
  claim8_cache_hit (fun a _ => a) exFS8 [] "net.net" 7 exRaw8 rfl

/-! ## Serial/clock matcher -/

/-- Substring test between the character lists of two strings. -/
def strContainsSub (hay needle : String) : Bool :=
  decide (needle.toList <:+: hay.toList)

/-- Modelled from the spec: `match_serials_to_cubes` and
`build_serial_lookup` live in `isistools/io/cubes.py`, which is not
part of the source tree (only its callers are).  Per specification
section 4.5, a serial number resolves to a source image when the image
clock identifier is a substring of the serial number, the first match
wins when several images match, and unmatched serials stay unresolved.
Images are given as pairs of a clock identifier and a path. -/
def resolve_serial (images : List (String × String)) (sn : String) : Option String :=
  (images.find? (fun img => strContainsSub sn img.1)).map (fun img => img.2)

/-- Modelled from the spec: the serial-to-path matching over a list of
serial numbers, one `resolve_serial` entry per serial. -/
def match_serials_to_cubes (serials : List String)
    (images : List (String × String)) : List (String × Option String) :=
  serials.map (fun sn => (sn, resolve_serial images sn))

/-- Claim C10: the matcher resolves a serial to the first image whose
clock identifier is a substring of the serial number, leaves serials
matched by no image unresolved, and maps every serial of the input list
to its resolution. -/
theorem claim10_serial_matching :
    (∀ (images : List (String × String)) (sn : String),
      (∀ img ∈ images, ¬ img.1.toList <:+: sn.toList) →
        resolve_serial images sn = none) ∧
    (∀ (pre post : List (String × String)) (img : String × String) (sn : String),
      img.1.toList <:+: sn.toList → (∀ p ∈ pre, ¬ p.1.toList <:+: sn.toList) →
        resolve_serial (pre ++ img :: post) sn = some img.2) ∧
    (∀ (serials : List String) (images : List (String × String)) (sn : String),
      sn ∈ serials →
        (sn, resolve_serial images sn) ∈ match_serials_to_cubes serials images) := by
  refine ⟨?_, ?_, ?_⟩
  · intro images sn hno
    unfold resolve_serial
    rw [List.find?_eq_none.mpr (fun img himg => by
      simp only [strContainsSub, decide_eq_true_eq]
      exact hno img himg)]
    rfl
  · intro pre post img sn hinf hpre
    induction pre with
    | nil =>
      unfold resolve_serial
      rw [List.nil_append, List.find?_cons_of_pos _ (by
        simp only [strContainsSub, decide_eq_true_eq]; exact hinf)]
      rfl
    | cons p pre ih =>
      show (List.find? _ (p :: (pre ++ img :: post))).map _ = _
      rw [List.find?_cons_of_neg _ (by
        simp only [strContainsSub, decide_eq_true_eq]
        exact hpre p (List.mem_cons_self p pre))]
      exact ih (fun x hx => hpre x (List.mem_cons_of_mem _ hx))
  · intro serials images sn hmem
    exact List.mem_map.mpr ⟨sn, hmem, rfl⟩

/-- Witness for claim C10 at concrete data: the serial `X/0123` resolves
to the first image whose clock id `123` occurs in it, and a serial that
contains no clock id stays unresolved. -/
theorem claim10_serial_matching_witness :
    resolve_serial [("123", "a.cub"), ("23", "b.cub")] "X/0123" = some "a.cub" ∧
    resolve_serial [("99", "c.cub")] "X/0123" = none :=
  ⟨claim10_serial_matching.2.1 [] [("23", "b.cub")] ("123", "a.cub") "X/0123"
      (by decide) (by intro p hp; exact absurd hp (List.not_mem_nil p)),
   claim10_serial_matching.1 [("99", "c.cub")] "X/0123" (by decide)⟩

/-! ## Fallback coordinate conversion (`_lonlat_from_campt`) -/

/-- Input row of the fallback conversion. -/
structure ImRow where
  serialnumber : String
  sample : ℚ
  line : ℚ
deriving DecidableEq

/-- Working row of the fallback conversion, with the two derived
columns; `none` models the NaN fill they start from. -/
structure CamptRow where
  serialnumber : String
  sample : ℚ
  line : ℚ
  campt_lon : Option ℚ
  campt_lat : Option ℚ
deriving DecidableEq

/-- Start state of the derived columns: both NaN on every row. -/
def initCamptRows (rows : List ImRow) : List CamptRow :=
  rows.map (fun r => ⟨r.serialnumber, r.sample, r.line, none, none⟩)

/-- Projection from a working row back to its input fields. -/
def projRow (r : CamptRow) : ImRow := ⟨r.serialnumber, r.sample, r.line⟩

/-- Characters of the reversed string up to the first slash. -/
def takeUntilSlash : List Char → List Char
  | [] => []
  | c :: cs => if c = '/' then [] else c :: takeUntilSlash cs

/-- Suffix of a serial number after the last slash, the whole string
when it has none, as `sn.rsplit("/", 1)[-1]`. -/
def lastSegment (s : String) : String :=
  ⟨(takeUntilSlash s.toList.reverse).reverse⟩

/-- Positional assignment of the campt output pairs to the rows of one
serial, in row order, as `df.loc[mask, col] = values` writes them. -/
def assignSerial (sn : String) : List CamptRow → List (ℚ × ℚ) → List CamptRow
  | [], _ => []
  | r :: rs, outs =>
    if r.serialnumber == sn then
      match outs with
      | [] => r :: assignSerial sn rs []
      | o :: os =>
        ⟨r.serialnumber, r.sample, r.line, some o.1, some o.2⟩ :: assignSerial sn rs os
    else r :: assignSerial sn rs outs

/-- One iteration of the per-serial loop of `_lonlat_from_campt`:
resolve the clock suffix through the lookup, batch the group
coordinates through the external campt tool (`none` models an
exception raised anywhere in the try block, `some` the parsed output
rows), and accept the result only when the returned row count equals
the submitted row count.  Returns the updated rows and whether this
image counted as a success. -/
def processSerial (campt : String → List (ℚ × ℚ) → Option (List (ℚ × ℚ)))
    (lookup : List (String × String)) (rows : List CamptRow) (sn : String) :
    List CamptRow × Bool :=
  match lookup.lookup (lastSegment sn) with
  | none => (rows, false)
  | some cube =>
    if (rows.filter (fun r => r.serialnumber == sn)).isEmpty then (rows, false)
    else
      match campt cube ((rows.filter (fun r => r.serialnumber == sn)).map
          (fun r => (r.sample, r.line))) with
      | none => (rows, false)
      | some outs =>
        if outs.length = (rows.filter (fun r => r.serialnumber == sn)).length then
          (assignSerial sn rows outs, true)
        else (rows, false)

/-- Accumulator step of the fallback loop: updated rows plus the
success count. -/
def camptStep (campt : String → List (ℚ × ℚ) → Option (List (ℚ × ℚ)))
    (lookup : List (String × String)) (acc : List CamptRow × ℕ) (sn : String) :
    List CamptRow × ℕ :=
  ((processSerial campt lookup acc.1 sn).1,
   acc.2 + (if (processSerial campt lookup acc.1 sn).2 then 1 else 0))

/-- Embedding of `_lonlat_from_campt`: iterate the distinct serial
numbers in first-occurrence order, count successes, and fail exactly
when no image succeeded. -/
def _lonlat_from_campt (campt : String → List (ℚ × ℚ) → Option (List (ℚ × ℚ)))
    (lookup : List (String × String)) (input : List ImRow) :
    Except String (List CamptRow) :=
  if ((unique (input.map (fun r => r.serialnumber))).foldl
      (camptStep campt lookup) (initCamptRows input, 0)).2 = 0 then
    .error "campt failed for all cubes"
  else
    .ok ((unique (input.map (fun r => r.serialnumber))).foldl
      (camptStep campt lookup) (initCamptRows input, 0)).1

/-- Acceptance of one serial, phrased against the input table: its
clock suffix resolves, its group is non-empty, the campt call returns
output, and the returned row count equals the group size. -/
def snAccepted (campt : String → List (ℚ × ℚ) → Option (List (ℚ × ℚ)))
    (lookup : List (String × String)) (input : List ImRow) (sn : String) : Bool :=
  match lookup.lookup (lastSegment sn) with
  | none => false
  | some cube =>
    if (input.filter (fun r => r.serialnumber == sn)).isEmpty then false
    else
      match campt cube ((input.filter (fun r => r.serialnumber == sn)).map
          (fun r => (r.sample, r.line))) with
      | none => false
      | some outs =>
        if outs.length = (input.filter (fun r => r.serialnumber == sn)).length then
          true
        else false

lemma initCamptRows_proj (input : List ImRow) :
    (initCamptRows input).map projRow = input := by
  induction input with
  | nil => rfl
  | cons r rs ih =>
    show projRow ⟨r.serialnumber, r.sample, r.line, none, none⟩ ::
      (initCamptRows rs).map projRow = r :: rs
    rw [ih]
    rfl

lemma assignSerial_proj (sn : String) (rows : List CamptRow) (outs : List (ℚ × ℚ)) :
    (assignSerial sn rows outs).map projRow = rows.map projRow := by
  induction rows generalizing outs with
  | nil => rfl
  | cons r rs ih =>
    simp only [assignSerial]
    by_cases hsn : (r.serialnumber == sn) = true
    · rw [if_pos hsn]
      cases outs with
      | nil => simp [ih]
      | cons o os => simp [projRow, ih]
    · rw [if_neg hsn]
      simp [ih]

lemma assignSerial_filter_ne {sn sn2 : String} (hne : sn2 ≠ sn)
    (rows : List CamptRow) (outs : List (ℚ × ℚ)) :
    (assignSerial sn rows outs).filter (fun r => r.serialnumber == sn2) =
      rows.filter (fun r => r.serialnumber == sn2) := by
  induction rows generalizing outs with
  | nil => rfl
  | cons r rs ih =>
    by_cases hsn : (r.serialnumber == sn) = true
    · have hr2 : (r.serialnumber == sn2) = false :=
        Bool.eq_false_iff.mpr (fun h2 =>
          hne ((eq_of_beq h2).symm.trans (eq_of_beq hsn)))
      cases outs with
      | nil => simp [assignSerial, hsn, hr2, ih]
      | cons o os => simp [assignSerial, hsn, hr2, ih]
    · by_cases hr2 : (r.serialnumber == sn2) = true
      · simp [assignSerial, hsn, hr2, ih]
      · simp [assignSerial, hsn, hr2, ih]

lemma assignSerial_filter_eq (sn : String) (rows : List CamptRow)
    (outs : List (ℚ × ℚ))
    (hlen : outs.length = (rows.filter (fun r => r.serialnumber == sn)).length) :
    ((assignSerial sn rows outs).filter (fun r => r.serialnumber == sn)).map
      (fun r => (r.campt_lon, r.campt_lat)) =
      outs.map (fun o => (some o.1, some o.2)) := by
  induction rows generalizing outs with
  | nil =>
    cases outs with
    | nil => rfl
    | cons o os => simp [List.filter_nil] at hlen
  | cons r rs ih =>
    by_cases hsn : (r.serialnumber == sn) = true
    · rw [List.filter_cons, if_pos hsn] at hlen
      cases outs with
      | nil => simp at hlen
      | cons o os =>
        simp only [List.length_cons, Nat.succ.injEq] at hlen
        have := ih os hlen
        simp [assignSerial, hsn, this]
    · rw [List.filter_cons, if_neg (by simp [hsn])] at hlen
      have := ih outs hlen
      simp [assignSerial, hsn, this]

lemma assignSerial_mem {sn : String} {rows : List CamptRow}
    {outs : List (ℚ × ℚ)} {r2 : CamptRow} (h : r2 ∈ assignSerial sn rows outs) :
    r2 ∈ rows ∨ (r2.serialnumber == sn) = true := by
  induction rows generalizing outs with
  | nil => exact absurd h (List.not_mem_nil r2)
  | cons r rs ih =>
    simp only [assignSerial] at h
    by_cases hsn : (r.serialnumber == sn) = true
    · rw [if_pos hsn] at h
      cases outs with
      | nil =>
        rcases List.mem_cons.mp h with rfl | h2
        · exact Or.inl (List.mem_cons_self _ _)
        · rcases ih h2 with h3 | h3
          · exact Or.inl (List.mem_cons_of_mem _ h3)
          · exact Or.inr h3
      | cons o os =>
        rcases List.mem_cons.mp h with rfl | h2
        · exact Or.inr hsn
        · rcases ih h2 with h3 | h3
          · exact Or.inl (List.mem_cons_of_mem _ h3)
          · exact Or.inr h3
    · rw [if_neg hsn] at h
      rcases List.mem_cons.mp h with rfl | h2
      · exact Or.inl (List.mem_cons_self _ _)
      · rcases ih h2 with h3 | h3
        · exact Or.inl (List.mem_cons_of_mem _ h3)
        · exact Or.inr h3

lemma isEmpty_false_of_ne_nil {α : Type} {l : List α} (h : l ≠ []) :
    l.isEmpty = false := by
  cases l with
  | nil => exact absurd rfl h
  | cons a l => rfl

lemma coords_proj (ms : List CamptRow) :
    ms.map (fun r => (r.sample, r.line)) =
      (ms.map projRow).map (fun r => (r.sample, r.line)) := by
  rw [List.map_map]
  rfl

lemma filter_proj {rows : List CamptRow} {input : List ImRow} (sn : String)
    (h : rows.map projRow = input) :
    (rows.filter (fun r => r.serialnumber == sn)).map projRow =
      input.filter (fun r => r.serialnumber == sn) := by
  induction rows generalizing input with
  | nil => subst h; rfl
  | cons r rs ih =>
    subst h
    by_cases hsn : (r.serialnumber == sn) = true
    · have h2 : ((projRow r).serialnumber == sn) = true := hsn
      simp only [List.map_cons, List.filter_cons, hsn, h2, if_pos, List.map_cons]
      rw [ih rfl]
    · have h2 : ((projRow r).serialnumber == sn) = false := Bool.eq_false_iff.mpr hsn
      simp only [List.map_cons, List.filter_cons, Bool.eq_false_iff.mpr hsn, h2,
        Bool.false_eq_true, if_neg]
      exact ih rfl

lemma filter_ne_nil_of_mem {input : List ImRow} {sn : String}
    (h : sn ∈ input.map (fun r => r.serialnumber)) :
    input.filter (fun r => r.serialnumber == sn) ≠ [] := by
  obtain ⟨r, hr, hser⟩ := List.mem_map.mp h
  intro h0
  have hmem : r ∈ input.filter (fun r => r.serialnumber == sn) :=
    List.mem_filter.mpr ⟨hr, by rw [show r.serialnumber = sn from hser]; exact beq_self_eq_true sn⟩
  rw [h0] at hmem
  exact absurd hmem (List.not_mem_nil r)

lemma processSerial_proj (campt : String → List (ℚ × ℚ) → Option (List (ℚ × ℚ)))
    (lookup : List (String × String)) (rows : List CamptRow) (sn : String) :
    ((processSerial campt lookup rows sn).1).map projRow = rows.map projRow := by
  unfold processSerial
  split
  · rfl
  · split
    · rfl
    · split
      · rfl
      · split
        · exact assignSerial_proj _ _ _
        · rfl

lemma processSerial_flag (campt : String → List (ℚ × ℚ) → Option (List (ℚ × ℚ)))
    (lookup : List (String × String)) {rows : List CamptRow} {input : List ImRow}
    (h : rows.map projRow = input) (sn : String) :
    (processSerial campt lookup rows sn).2 = snAccepted campt lookup input sn := by
  have hfilter := filter_proj sn h
  have hlen : (rows.filter (fun r => r.serialnumber == sn)).length =
      (input.filter (fun r => r.serialnumber == sn)).length := by
    rw [← hfilter, List.length_map]
  have hcoords : (rows.filter (fun r => r.serialnumber == sn)).map
      (fun r => (r.sample, r.line)) =
      (input.filter (fun r => r.serialnumber == sn)).map (fun r => (r.sample, r.line)) := by
    rw [coords_proj, hfilter]
  have hemp : (rows.filter (fun r => r.serialnumber == sn)).isEmpty =
      (input.filter (fun r => r.serialnumber == sn)).isEmpty := by
    rw [← hfilter]
    cases rows.filter (fun r => r.serialnumber == sn) <;> rfl
  unfold processSerial snAccepted
  cases lookup.lookup (lastSegment sn) with
  | none => rfl
  | some cube =>
    dsimp only
    rw [hemp, hcoords, hlen]
    split
    · rfl
    · split
      · rfl
      · split
        · rfl
        · rfl

lemma processSerial_filter_ne (campt : String → List (ℚ × ℚ) → Option (List (ℚ × ℚ)))
    (lookup : List (String × String)) (rows : List CamptRow) {sn sn2 : String}
    (hne : sn2 ≠ sn) :
    ((processSerial campt lookup rows sn).1).filter (fun r => r.serialnumber == sn2) =
      rows.filter (fun r => r.serialnumber == sn2) := by
  unfold processSerial
  split
  · rfl
  · split
    · rfl
    · split
      · rfl
      · split
        · exact assignSerial_filter_ne hne rows _
        · rfl

lemma processSerial_false (campt : String → List (ℚ × ℚ) → Option (List (ℚ × ℚ)))
    (lookup : List (String × String)) (rows : List CamptRow) (sn : String)
    (h : (processSerial campt lookup rows sn).2 = false) :
    (processSerial campt lookup rows sn).1 = rows := by
  revert h
  unfold processSerial
  split
  · intro _; rfl
  · split
    · intro _; rfl
    · split
      · intro _; rfl
      · split
        · intro h; simp at h
        · intro _; rfl

lemma processSerial_true (campt : String → List (ℚ × ℚ) → Option (List (ℚ × ℚ)))
    (lookup : List (String × String)) (rows : List CamptRow) (sn : String)
    (h : (processSerial campt lookup rows sn).2 = true) :
    ∃ outs, (processSerial campt lookup rows sn).1 = assignSerial sn rows outs := by
  revert h
  unfold processSerial
  split
  · intro h; simp at h
  · split
    · intro h; simp at h
    · split
      · intro h; simp at h
      · split
        · intro _; exact ⟨_, rfl⟩
        · intro h; simp at h

lemma fold_proj (campt : String → List (ℚ × ℚ) → Option (List (ℚ × ℚ)))
    (lookup : List (String × String)) {input : List ImRow} :
    ∀ (sns : List String) (rows : List CamptRow) (n : ℕ),
      rows.map projRow = input →
      ((sns.foldl (camptStep campt lookup) (rows, n)).1).map projRow = input := by
  intro sns
  induction sns with
  | nil => intro rows n h; exact h
  | cons a rest ih =>
    intro rows n h
    exact ih (processSerial campt lookup rows a).1
      (n + if (processSerial campt lookup rows a).2 then 1 else 0)
      (by rw [processSerial_proj]; exact h)

lemma fold_count (campt : String → List (ℚ × ℚ) → Option (List (ℚ × ℚ)))
    (lookup : List (String × String)) {input : List ImRow} :
    ∀ (sns : List String) (rows : List CamptRow) (n : ℕ),
      rows.map projRow = input →
      (sns.foldl (camptStep campt lookup) (rows, n)).2 =
        n + sns.countP (fun sn => snAccepted campt lookup input sn) := by
  intro sns
  induction sns with
  | nil => intro rows n h; simp
  | cons a rest ih =>
    intro rows n h
    have hflag := processSerial_flag campt lookup h a
    have hrec := ih (processSerial campt lookup rows a).1
      (n + if (processSerial campt lookup rows a).2 then 1 else 0)
      (by rw [processSerial_proj]; exact h)
    show (rest.foldl (camptStep campt lookup)
      ((processSerial campt lookup rows a).1,
       n + if (processSerial campt lookup rows a).2 then 1 else 0)).2 = _
    rw [hrec, hflag, List.countP_cons]
    cases snAccepted campt lookup input a <;> (simp; try omega)

lemma fold_filter_ne (campt : String → List (ℚ × ℚ) → Option (List (ℚ × ℚ)))
    (lookup : List (String × String)) {sn : String} :
    ∀ (sns : List String), sn ∉ sns → ∀ (rows : List CamptRow) (n : ℕ),
      ((sns.foldl (camptStep campt lookup) (rows, n)).1).filter
        (fun r => r.serialnumber == sn) =
        rows.filter (fun r => r.serialnumber == sn) := by
  intro sns
  induction sns with
  | nil => intro _ rows n; rfl
  | cons a rest ih =>
    intro hnot rows n
    have hne : sn ≠ a := fun he => hnot (he ▸ List.mem_cons_self a rest)
    have hrec := ih (fun hm => hnot (List.mem_cons_of_mem _ hm))
      (processSerial campt lookup rows a).1
      (n + if (processSerial campt lookup rows a).2 then 1 else 0)
    show ((rest.foldl (camptStep campt lookup)
      ((processSerial campt lookup rows a).1,
       n + if (processSerial campt lookup rows a).2 then 1 else 0)).1).filter
      (fun r => r.serialnumber == sn) = _
    rw [hrec]
    exact processSerial_filter_ne campt lookup rows hne

lemma fold_invariant (campt : String → List (ℚ × ℚ) → Option (List (ℚ × ℚ)))
    (lookup : List (String × String)) {input : List ImRow} :
    ∀ (sns : List String) (rows : List CamptRow) (n : ℕ),
      rows.map projRow = input →
      (∀ r ∈ rows, snAccepted campt lookup input r.serialnumber = false →
        r.campt_lon = none ∧ r.campt_lat = none) →
      ∀ r ∈ (sns.foldl (camptStep campt lookup) (rows, n)).1,
        snAccepted campt lookup input r.serialnumber = false →
        r.campt_lon = none ∧ r.campt_lat = none := by
  intro sns
  induction sns with
  | nil => intro rows n _ hinv; exact hinv
  | cons a rest ih =>
    intro rows n hproj hinv
    have hproj2 : ((processSerial campt lookup rows a).1).map projRow = input := by
      rw [processSerial_proj]; exact hproj
    have hinv2 : ∀ r ∈ (processSerial campt lookup rows a).1,
        snAccepted campt lookup input r.serialnumber = false →
        r.campt_lon = none ∧ r.campt_lat = none := by
      cases hflag : (processSerial campt lookup rows a).2 with
      | false =>
        rw [processSerial_false campt lookup rows a hflag]
        exact hinv
      | true =>
        obtain ⟨outs, houts⟩ := processSerial_true campt lookup rows a hflag
        rw [houts]
        intro r hr hacc
        rcases assignSerial_mem hr with hmem | hser
        · exact hinv r hmem hacc
        · have ha : snAccepted campt lookup input a = true := by
            rw [← processSerial_flag campt lookup hproj a]
            exact hflag
          rw [eq_of_beq hser, ha] at hacc
          cases hacc
    exact ih (processSerial campt lookup rows a).1
      (n + if (processSerial campt lookup rows a).2 then 1 else 0) hproj2 hinv2

lemma fold_assigned (campt : String → List (ℚ × ℚ) → Option (List (ℚ × ℚ)))
    (lookup : List (String × String)) {input : List ImRow} {sn cube : String}
    {outs : List (ℚ × ℚ)}
    (hlook : lookup.lookup (lastSegment sn) = some cube)
    (hcampt : campt cube ((input.filter (fun r => r.serialnumber == sn)).map
      (fun r => (r.sample, r.line))) = some outs)
    (hne : input.filter (fun r => r.serialnumber == sn) ≠ [])
    (hlen : outs.length = (input.filter (fun r => r.serialnumber == sn)).length) :
    ∀ (sns : List String), sns.Nodup → sn ∈ sns →
      ∀ (rows : List CamptRow) (n : ℕ), rows.map projRow = input →
      (((sns.foldl (camptStep campt lookup) (rows, n)).1).filter
        (fun r => r.serialnumber == sn)).map (fun r => (r.campt_lon, r.campt_lat)) =
        outs.map (fun o => (some o.1, some o.2)) := by
  intro sns
  induction sns with
  | nil => intro _ hmem; exact absurd hmem (List.not_mem_nil sn)
  | cons a rest ih =>
    intro hnd hmem rows n hproj
    by_cases ha : a = sn
    · subst ha
      have hnotrest : a ∉ rest := (List.nodup_cons.mp hnd).1
      have hfilter := filter_proj a hproj
      have hfne : rows.filter (fun r => r.serialnumber == a) ≠ [] := by
        intro h0
        rw [h0] at hfilter
        exact hne hfilter.symm
      have hlen2 : outs.length = (rows.filter (fun r => r.serialnumber == a)).length := by
        rw [hlen, ← hfilter, List.length_map]
      have hproc : (processSerial campt lookup rows a).1 = assignSerial a rows outs := by
        unfold processSerial
        rw [hlook]
        dsimp only
        rw [if_neg (by rw [isEmpty_false_of_ne_nil hfne]; exact Bool.false_ne_true)]
        rw [coords_proj, hfilter, hcampt]
        dsimp only
        rw [if_pos hlen2]
      have hrest := fold_filter_ne campt lookup rest hnotrest
        (processSerial campt lookup rows a).1
        (n + if (processSerial campt lookup rows a).2 then 1 else 0)
      show (((rest.foldl (camptStep campt lookup)
        ((processSerial campt lookup rows a).1,
         n + if (processSerial campt lookup rows a).2 then 1 else 0)).1).filter
        (fun r => r.serialnumber == a)).map (fun r => (r.campt_lon, r.campt_lat)) = _
      rw [hrest, hproc]
      exact assignSerial_filter_eq a rows outs hlen2
    · have hmem2 : sn ∈ rest := by
        rcases List.mem_cons.mp hmem with h | h
        · exact absurd h.symm ha
        · exact h
      exact ih (List.nodup_cons.mp hnd).2 hmem2 (processSerial campt lookup rows a).1
        (n + if (processSerial campt lookup rows a).2 then 1 else 0)
        (by rw [processSerial_proj]; exact hproj)

/-- Claim C4: the fallback conversion raises the conversion error
exactly when no image has its coordinates accepted, and on an accepted
run the rows of images that were not accepted (unresolved serial,
failed call, or discarded mismatch) keep NaN in both derived columns. -/
theorem claim4_total_failure (campt : String → List (ℚ × ℚ) → Option (List (ℚ × ℚ)))
    (lookup : List (String × String)) (input : List ImRow) :
    ((∃ e, _lonlat_from_campt campt lookup input = .error e) ↔
      ∀ sn ∈ unique (input.map (fun r => r.serialnumber)),
        snAccepted campt lookup input sn = false) ∧
    (∀ res, _lonlat_from_campt campt lookup input = .ok res →
      ∀ r ∈ res, snAccepted campt lookup input r.serialnumber = false →
        r.campt_lon = none ∧ r.campt_lat = none) := by
  have hcount := fold_count campt lookup (unique (input.map (fun r => r.serialnumber)))
    (initCamptRows input) 0 (initCamptRows_proj input)
  constructor
  · unfold _lonlat_from_campt
    by_cases hz : ((unique (input.map (fun r => r.serialnumber))).foldl
        (camptStep campt lookup) (initCamptRows input, 0)).2 = 0
    · rw [if_pos hz]
      rw [hcount, Nat.zero_add] at hz
      constructor
      · intro _ sn hsn
        exact Bool.eq_false_iff.mpr (List.countP_eq_zero.mp hz sn hsn)
      · intro _
        exact ⟨_, rfl⟩
    · rw [if_neg hz]
      constructor
      · rintro ⟨e, he⟩
        cases he
      · intro hall
        exfalso
        apply hz
        rw [hcount, Nat.zero_add]
        exact List.countP_eq_zero.mpr (fun a ha => by
          rw [hall a ha]
          exact Bool.false_ne_true)
  · intro res hres r hr
    unfold _lonlat_from_campt at hres
    by_cases hz : ((unique (input.map (fun r => r.serialnumber))).foldl
        (camptStep campt lookup) (initCamptRows input, 0)).2 = 0
    · rw [if_pos hz] at hres
      cases hres
    · rw [if_neg hz] at hres
      cases hres
      refine fold_invariant campt lookup _ _ _ (initCamptRows_proj input) ?_ r hr
      intro r2 hr2 _
      obtain ⟨r0, _, hr0⟩ := List.mem_map.mp hr2
      rw [← hr0]
      exact ⟨rfl, rfl⟩

/-- Input rows for the claim C4 witness: one measurement whose serial
resolves nowhere. -/
def exInput4 : List ImRow := [⟨"A/1", 1, 2⟩]

/-- Witness for claim C4 at concrete data: with an empty lookup no
image is accepted, so the run fails with the conversion error. -/
theorem claim4_total_failure_witness :
    ∃ e, _lonlat_from_campt (fun _ _ => none) [] exInput4 = .error e :=
  (claim4_total_failure (fun _ _ => none) [] exInput4).1.mpr (by decide)

/-- Claim C5: in the fallback loop, the coordinates returned for one
image group are applied to that group, in submission order, exactly
when the returned row count equals the submitted row count; on a
mismatch nothing of that group is updated and its rows keep NaN. -/
theorem claim5_rowcount_gate (campt : String → List (ℚ × ℚ) → Option (List (ℚ × ℚ)))
    (lookup : List (String × String)) (input : List ImRow) (sn cube : String)
    (outs : List (ℚ × ℚ))
    (hmem : sn ∈ input.map (fun r => r.serialnumber))
    (hlook : lookup.lookup (lastSegment sn) = some cube)
    (hcampt : campt cube ((input.filter (fun r => r.serialnumber == sn)).map
      (fun r => (r.sample, r.line))) = some outs) :
    (outs.length = (input.filter (fun r => r.serialnumber == sn)).length →
      ∃ res, _lonlat_from_campt campt lookup input = .ok res ∧
        (res.filter (fun r => r.serialnumber == sn)).map
          (fun r => (r.campt_lon, r.campt_lat)) =
          outs.map (fun o => (some o.1, some o.2))) ∧
    (outs.length ≠ (input.filter (fun r => r.serialnumber == sn)).length →
      ∀ res, _lonlat_from_campt campt lookup input = .ok res →
        ∀ r ∈ res, r.serialnumber = sn →
          r.campt_lon = none ∧ r.campt_lat = none) := by
  have hne := filter_ne_nil_of_mem hmem
  have hempf : (input.filter (fun r => r.serialnumber == sn)).isEmpty = false :=
    isEmpty_false_of_ne_nil hne
  constructor
  · intro hlen
    have haccept : snAccepted campt lookup input sn = true := by
      unfold snAccepted
      rw [hlook]
      dsimp only
      rw [if_neg (by rw [hempf]; exact Bool.false_ne_true), hcampt]
      dsimp only
      rw [if_pos hlen]
    have hsnu : sn ∈ unique (input.map (fun r => r.serialnumber)) :=
      mem_unique.mpr hmem
    have hpos : 0 < (unique (input.map (fun r => r.serialnumber))).countP
        (fun s => snAccepted campt lookup input s) :=
      List.countP_pos_iff.mpr ⟨sn, hsnu, haccept⟩
    have hcount := fold_count campt lookup (unique (input.map (fun r => r.serialnumber)))
      (initCamptRows input) 0 (initCamptRows_proj input)
    unfold _lonlat_from_campt
    rw [if_neg (by rw [hcount, Nat.zero_add]; omega)]
    refine ⟨_, rfl, ?_⟩
    exact fold_assigned campt lookup hlook hcampt hne hlen
      (unique (input.map (fun r => r.serialnumber)))
      (nodup_unique _) hsnu _ 0 (initCamptRows_proj input)
  · intro hlen res hres r hr hser
    have hacc_false : snAccepted campt lookup input sn = false := by
      unfold snAccepted
      rw [hlook]
      dsimp only
      rw [if_neg (by rw [hempf]; exact Bool.false_ne_true), hcampt]
      dsimp only
      rw [if_neg hlen]
    unfold _lonlat_from_campt at hres
    by_cases hz : ((unique (input.map (fun r => r.serialnumber))).foldl
        (camptStep campt lookup) (initCamptRows input, 0)).2 = 0
    · rw [if_pos hz] at hres
      cases hres
    · rw [if_neg hz] at hres
      cases hres
      refine fold_invariant campt lookup _ _ _ (initCamptRows_proj input) ?_ r hr ?_
      · intro r2 hr2 _
        obtain ⟨r0, _, hr0⟩ := List.mem_map.mp hr2
        rw [← hr0]
        exact ⟨rfl, rfl⟩
      · rw [hser]
        exact hacc_false

/-- Input rows for the claim C5 witness. -/
def exInput5 : List ImRow := [⟨"A/1", 1, 2⟩]

/-- Lookup for the claim C5 witness: the clock suffix `1` resolves. -/
def exLookup5 : List (String × String) := [("1", "a.cub")]

/-- External tool for the claim C5 witness: always returns one output
row. -/
def exCampt5 : String → List (ℚ × ℚ) → Option (List (ℚ × ℚ)) :=
  fun _ _ => some [(3, 4)]

/-- Witness for claim C5 at concrete data: one resolved image whose
returned row count matches gets its coordinates applied in order. -/
theorem claim5_rowcount_gate_witness :
    ∃ res, _lonlat_from_campt exCampt5 exLookup5 exInput5 = .ok res ∧
      (res.filter (fun r => r.serialnumber == "A/1")).map
        (fun r => (r.campt_lon, r.campt_lat)) =
        ([((3 : ℚ), (4 : ℚ))]).map (fun o => (some o.1, some o.2)) :=
  (claim5_rowcount_gate exCampt5 exLookup5 exInput5 "A/1" "a.cub" [(3, 4)]
    (by decide) (by decide) rfl).1 (by decide)

/-! ## Image-pair finder (`_find_image_pairs` in `apps/tiepoint_review.py`) -/

/-- Lexicographic strict comparison of character lists by code point,
as Python compares strings. -/
def charListLt : List Char → List Char → Bool
  | [], [] => false
  | [], _ :: _ => true
  | _ :: _, [] => false
  | a :: xs, b :: ys =>
    if a.toNat < b.toNat then true
    else if b.toNat < a.toNat then false
    else charListLt xs ys

/-- Strict string comparison by code points. -/
def strLt (a b : String) : Bool := charListLt a.toList b.toList

/-- Non-strict string comparison by code points. -/
def strLe (a b : String) : Bool := !(charListLt b.toList a.toList)

lemma charListLt_irrefl : ∀ l, charListLt l l = false
  | [] => rfl
  | c :: cs => by simp [charListLt, charListLt_irrefl cs]

lemma charListLt_asymm : ∀ l1 l2, charListLt l1 l2 = true → charListLt l2 l1 = false
  | [], [] => by simp [charListLt]
  | [], _ :: _ => fun _ => rfl
  | _ :: _, [] => by simp [charListLt]
  | a :: xs, b :: ys => by
    simp only [charListLt]
    by_cases h1 : a.toNat < b.toNat
    · intro _
      rw [if_neg (by omega), if_pos h1]
    · by_cases h2 : b.toNat < a.toNat
      · rw [if_neg h1, if_pos h2]
        intro h
        cases h
      · rw [if_neg h1, if_neg h2, if_neg h2, if_neg h1]
        exact charListLt_asymm xs ys

lemma charListLt_trans : ∀ l1 l2 l3, charListLt l1 l2 = true →
    charListLt l2 l3 = true → charListLt l1 l3 = true
  | [], l2, [] => by
    intro _ h2
    cases l2 with
    | nil => simp [charListLt] at h2
    | cons b ys => simp [charListLt] at h2
  | [], _, _ :: _ => by intro _ _; rfl
  | _ :: _, l2, [] => by
    intro h1 h2
    cases l2 <;> simp [charListLt] at h2
  | a :: xs, l2, c :: zs => by
    intro h1 h2
    cases l2 with
    | nil => simp [charListLt] at h1
    | cons b ys =>
      simp only [charListLt] at h1 h2 ⊢
      by_cases hab : a.toNat < b.toNat
      · by_cases hbc : b.toNat < c.toNat
        · rw [if_pos (by omega)]
        · rw [if_neg hbc] at h2
          by_cases hcb : c.toNat < b.toNat
          · rw [if_pos hcb] at h2; cases h2
          · rw [if_pos (by omega)]
      · rw [if_neg hab] at h1
        by_cases hba : b.toNat < a.toNat
        · rw [if_pos hba] at h1; cases h1
        · rw [if_neg hba] at h1
          by_cases hbc : b.toNat < c.toNat
          · rw [if_pos (by omega)]
          · rw [if_neg hbc] at h2
            by_cases hcb : c.toNat < b.toNat
            · rw [if_pos hcb] at h2; cases h2
            · rw [if_neg hcb] at h2
              rw [if_neg (by omega), if_neg (by omega)]
              exact charListLt_trans xs ys zs h1 h2

lemma charListLt_connex : ∀ l1 l2, charListLt l1 l2 = false →
    charListLt l2 l1 = false → l1 = l2
  | [], [] => fun _ _ => rfl
  | [], _ :: _ => by simp [charListLt]
  | _ :: _, [] => by simp [charListLt]
  | a :: xs, b :: ys => by
    intro h1 h2
    simp only [charListLt] at h1 h2
    by_cases hab : a.toNat < b.toNat
    · rw [if_pos hab] at h1; cases h1
    · by_cases hba : b.toNat < a.toNat
      · rw [if_pos hba] at h2; cases h2
      · rw [if_neg hab, if_neg hba] at h1
        rw [if_neg hba, if_neg hab] at h2
        have hnat : a.toNat = b.toNat := by omega
        have hce : a = b := Char.eq_of_val_eq (UInt32.toNat.inj hnat)
        rw [hce, charListLt_connex xs ys h1 h2]

lemma toList_inj {a b : String} (h : a.toList = b.toList) : a = b := by
  cases a
  cases b
  exact congrArg String.mk h

lemma strLt_irrefl (a : String) : strLt a a = false := charListLt_irrefl _

lemma strLt_trans {a b c : String} (h1 : strLt a b = true) (h2 : strLt b c = true) :
    strLt a c = true := charListLt_trans _ _ _ h1 h2

lemma strLt_asymm {a b : String} (h : strLt a b = true) : strLt b a = false :=
  charListLt_asymm _ _ h

lemma str_eq_of_not_lt {a b : String} (h1 : strLt a b = false)
    (h2 : strLt b a = false) : a = b :=
  toList_inj (charListLt_connex _ _ h1 h2)

lemma strLe_total (a b : String) : strLe a b = true ∨ strLe b a = true := by
  unfold strLe
  by_cases h : charListLt b.toList a.toList = true
  · right
    rw [charListLt_asymm _ _ h]
    rfl
  · left
    rw [Bool.eq_false_iff.mpr h]
    rfl

lemma strLe_of_not_le {a b : String} (h : ¬ strLe a b = true) : strLe b a = true := by
  rcases strLe_total a b with h1 | h1
  · exact absurd h1 h
  · exact h1

lemma strLe_trans {a b c : String} (h1 : strLe a b = true) (h2 : strLe b c = true) :
    strLe a c = true := by
  unfold strLe at *
  rw [Bool.not_eq_eq_eq_not, Bool.not_true] at h1 h2 ⊢
  by_cases hca : charListLt c.toList a.toList = true
  · by_cases hcb : charListLt c.toList b.toList = true
    · exact absurd hcb (Bool.eq_false_iff.mp h2)
    · by_cases hbc : charListLt b.toList c.toList = true
      · exact absurd (charListLt_trans _ _ _ hbc hca) (Bool.eq_false_iff.mp h1)
      · have : b = c := toList_inj (charListLt_connex _ _
          (Bool.eq_false_iff.mpr hbc) (Bool.eq_false_iff.mpr hcb))
        rw [← this] at hca
        exact absurd hca (Bool.eq_false_iff.mp h1)
  · exact Bool.eq_false_iff.mpr hca

lemma strLt_of_le_of_ne {a b : String} (h1 : strLe a b = true) (h2 : a ≠ b) :
    strLt a b = true := by
  by_cases h : strLt a b = true
  · exact h
  · have hba : charListLt b.toList a.toList = false := by
      have := h1
      unfold strLe at this
      rw [Bool.not_eq_eq_eq_not, Bool.not_true] at this
      exact this
    exact absurd (str_eq_of_not_lt (Bool.eq_false_iff.mpr h) hba) h2

lemma strLt_ne {a b : String} (h : strLt a b = true) : a ≠ b := by
  intro he
  rw [he, strLt_irrefl] at h
  cases h

/-- Insertion of a string into an ascending list, the stable insertion
underlying the Python `sorted`. -/
def insertLe (x : String) : List String → List String
  | [] => [x]
  | y :: ys => if strLe x y then x :: y :: ys else y :: insertLe x ys

/-- Ascending stable sort of strings, as `sorted` over code points. -/
def sortStr : List String → List String
  | [] => []
  | x :: xs => insertLe x (sortStr xs)

lemma insertLe_perm (x : String) (l : List String) :
    (insertLe x l).Perm (x :: l) := by
  induction l with
  | nil => exact List.Perm.refl _
  | cons y ys ih =>
    by_cases h : strLe x y = true
    · rw [insertLe, if_pos h]
    · rw [insertLe, if_neg h]
      exact (ih.cons y).trans (List.Perm.swap x y ys)

lemma sortStr_perm (l : List String) : (sortStr l).Perm l := by
  induction l with
  | nil => exact List.Perm.refl _
  | cons x xs ih =>
    exact (insertLe_perm x (sortStr xs)).trans (ih.cons x)

lemma insertLe_mem {x z : String} {l : List String} (h : z ∈ insertLe x l) :
    z = x ∨ z ∈ l := by
  have := (insertLe_perm x l).mem_iff.mp h
  exact List.mem_cons.mp this

lemma insertLe_sorted (x : String) {l : List String}
    (h : l.Pairwise (fun a b => strLe a b = true)) :
    (insertLe x l).Pairwise (fun a b => strLe a b = true) := by
  induction l with
  | nil => exact List.pairwise_singleton _ _
  | cons y ys ih =>
    by_cases hxy : strLe x y = true
    · rw [insertLe, if_pos hxy]
      refine List.Pairwise.cons ?_ h
      intro z hz
      rcases List.mem_cons.mp hz with rfl | hz
      · exact hxy
      · exact strLe_trans hxy (List.rel_of_pairwise_cons h hz)
    · rw [insertLe, if_neg hxy]
      refine List.Pairwise.cons ?_ (ih (List.Pairwise.sublist (List.sublist_cons_self y ys) h))
      intro z hz
      rcases insertLe_mem hz with rfl | hz
      · exact strLe_of_not_le hxy
      · exact List.rel_of_pairwise_cons h hz

lemma sortStr_sorted (l : List String) :
    (sortStr l).Pairwise (fun a b => strLe a b = true) := by
  induction l with
  | nil => exact List.Pairwise.nil
  | cons x xs ih => exact insertLe_sorted x ih

lemma sortStr_pairwise_lt {l : List String} (h : l.Nodup) :
    (sortStr l).Pairwise (fun a b => strLt a b = true) := by
  have hnd : (sortStr l).Nodup := ((sortStr_perm l).nodup_iff).mpr h
  have hs := sortStr_sorted l
  exact ((hs.and hnd).imp (fun hab => strLt_of_le_of_ne hab.1 hab.2))

/-- The distinct serial set of each point, one strictly sorted list per
point identifier, point identifiers scanned in ascending order as
`groupby` yields them; rows are (pointId, serialnumber) pairs. -/
def pointGroups (rows : List (String × String)) : List (List String) :=
  (sortStr (unique (rows.map (fun r => r.1)))).map (fun pid =>
    sortStr (unique ((rows.filter (fun r => r.1 == pid)).map (fun r => r.2))))

/-- All ordered index pairs of a list, `(l[i], l[j])` for `i < j`, as
the nested enumeration loop builds them. -/
def pairsOf : List String → List (String × String)
  | [] => []
  | x :: xs => xs.map (fun y => (x, y)) ++ pairsOf xs

/-- One counting step of the insertion-ordered dictionary
`pair_counts[pair] = pair_counts.get(pair, 0) + 1`. -/
def bump (acc : List ((String × String) × ℕ)) (k : String × String) :
    List ((String × String) × ℕ) :=
  if acc.any (fun e => e.1 == k) then
    acc.map (fun e => if e.1 == k then (e.1, e.2 + 1) else e)
  else acc ++ [(k, 1)]

/-- The shared-point counter dictionary of `_find_image_pairs`, an
association list in insertion order. -/
def pair_counts (rows : List (String × String)) : List ((String × String) × ℕ) :=
  (((pointGroups rows).map pairsOf).flatten).foldl bump []

/-- Stable insertion for the descending-count sort. -/
def insertDesc (x : (String × String) × ℕ) :
    List ((String × String) × ℕ) → List ((String × String) × ℕ)
  | [] => [x]
  | y :: ys => if y.2 < x.2 then x :: y :: ys else y :: insertDesc x ys

/-- Stable sort by descending count, as
`sorted(pair_counts.items(), key=minus count)` orders the items. -/
def sortDesc (l : List ((String × String) × ℕ)) : List ((String × String) × ℕ) :=
  l.foldl (fun acc x => insertDesc x acc) []

/-- Embedding of `_find_image_pairs`: canonical serial pairs that share
control points, most shared first. -/
def _find_image_pairs (rows : List (String × String)) : List (String × String) :=
  (sortDesc (pair_counts rows)).map (fun e => e.1)

/-- All pair occurrences over the point groups, in enumeration order. -/
def allPairs (rows : List (String × String)) : List (String × String) :=
  ((pointGroups rows).map pairsOf).flatten

/-- Number of points whose serial set holds both members of the pair. -/
def sharedPointCount (rows : List (String × String)) (p : String × String) : ℕ :=
  ((pointGroups rows).filter (fun g => g.contains p.1 && g.contains p.2)).length

/-- Lexicographic order on serial pairs, as Python compares tuples;
this is the order claim C7 asserts for ties. -/
def pairLt (p q : String × String) : Bool :=
  strLt p.1 q.1 || (p.1 == q.1 && strLt p.2 q.2)

lemma pointGroups_sorted (rows : List (String × String)) :
    ∀ g ∈ pointGroups rows, g.Pairwise (fun a b => strLt a b = true) := by
  intro g hg
  obtain ⟨pid, _, hgeq⟩ := List.mem_map.mp hg
  rw [← hgeq]
  exact sortStr_pairwise_lt (nodup_unique _)

lemma pairsOf_fst_mem {g : List String} {p : String × String}
    (h : p ∈ pairsOf g) : p.1 ∈ g ∧ p.2 ∈ g := by
  induction g with
  | nil => exact absurd h (List.not_mem_nil p)
  | cons x xs ih =>
    rcases List.mem_append.mp h with h1 | h1
    · obtain ⟨y, hy, hp⟩ := List.mem_map.mp h1
      rw [← hp]
      exact ⟨List.mem_cons_self _ _, List.mem_cons_of_mem _ hy⟩
    · obtain ⟨ha, hb⟩ := ih h1
      exact ⟨List.mem_cons_of_mem _ ha, List.mem_cons_of_mem _ hb⟩

lemma pairsOf_mem {g : List String}
    (hs : g.Pairwise (fun a b => strLt a b = true)) (p : String × String) :
    p ∈ pairsOf g ↔ p.1 ∈ g ∧ p.2 ∈ g ∧ strLt p.1 p.2 = true := by
  induction g with
  | nil => simp [pairsOf]
  | cons x xs ih =>
    have hx : ∀ b ∈ xs, strLt x b = true := fun b hb => List.rel_of_pairwise_cons hs hb
    constructor
    · intro h
      rcases List.mem_append.mp h with h1 | h1
      · obtain ⟨y, hy, hp⟩ := List.mem_map.mp h1
        rw [← hp]
        exact ⟨List.mem_cons_self _ _, List.mem_cons_of_mem _ hy, hx y hy⟩
      · obtain ⟨h1m, h2m, hlt⟩ := (ih hs.tail).mp h1
        exact ⟨List.mem_cons_of_mem _ h1m, List.mem_cons_of_mem _ h2m, hlt⟩
    · rintro ⟨h1, h2, hlt⟩
      rcases List.mem_cons.mp h1 with he1 | he1
      · rcases List.mem_cons.mp h2 with he2 | he2
        · rw [he1, he2] at hlt
          rw [strLt_irrefl] at hlt
          cases hlt
        · refine List.mem_append.mpr (Or.inl ?_)
          refine List.mem_map.mpr ⟨p.2, he2, ?_⟩
          rw [← he1]
      · rcases List.mem_cons.mp h2 with he2 | he2
        · exfalso
          have hxp1 : strLt x p.1 = true := hx p.1 he1
          rw [he2] at hlt
          have := strLt_trans hxp1 hlt
          rw [strLt_irrefl] at this
          cases this
        · exact List.mem_append.mpr (Or.inr ((ih hs.tail).mpr ⟨he1, he2, hlt⟩))

lemma pairsOf_nodup {g : List String}
    (hs : g.Pairwise (fun a b => strLt a b = true)) : (pairsOf g).Nodup := by
  induction g with
  | nil => exact List.Pairwise.nil
  | cons x xs ih =>
    have hxs : x ∉ xs := fun hmem => by
      have := List.rel_of_pairwise_cons hs hmem
      rw [strLt_irrefl] at this
      cases this
    have hnd : xs.Nodup := hs.tail.imp (fun h => strLt_ne h)
    refine List.Nodup.append ?_ (ih hs.tail) ?_
    · exact List.Nodup.map (fun a b hab => congrArg Prod.snd hab) hnd
    · intro p hp1 hp2
      obtain ⟨y, _, hpy⟩ := List.mem_map.mp hp1
      have := (pairsOf_fst_mem hp2).1
      rw [← hpy] at this
      exact hxs this

/-- Invariant of the counting fold: keys are distinct, each entry holds
the running count of its key over the processed prefix, and the keys
are exactly the values processed so far. -/
def bumpInv (ks : List (String × String))
    (acc : List ((String × String) × ℕ)) : Prop :=
  (acc.map (fun e => e.1)).Nodup ∧
  (∀ e ∈ acc, e.2 = ks.count e.1) ∧
  (∀ e ∈ acc, e.1 ∈ ks) ∧
  (∀ k ∈ ks, ∃ e ∈ acc, e.1 = k)

lemma bump_entry_fst (k : String × String) (e : (String × String) × ℕ) :
    (if e.1 == k then (e.1, e.2 + 1) else e).1 = e.1 := by
  by_cases hbe : (e.1 == k) = true
  · rw [if_pos hbe]
  · rw [if_neg hbe]

lemma bump_step {ks : List (String × String)}
    {acc : List ((String × String) × ℕ)} {k : String × String}
    (h : bumpInv ks acc) : bumpInv (ks ++ [k]) (bump acc k) := by
  obtain ⟨hnd, hcnt, hmem, hcov⟩ := h
  have hcount_app : ∀ (a : String × String),
      (ks ++ [k]).count a = ks.count a + if a = k then 1 else 0 := by
    intro a
    rw [List.count_append]
    congr 1
    by_cases hak : a = k
    · subst hak
      simp [List.count_cons]
    · simp [List.count_cons, beq_iff_eq, Ne.symm hak, hak]
  by_cases hk : acc.any (fun e => e.1 == k) = true
  · have hkmem : ∃ e ∈ acc, e.1 = k := by
      obtain ⟨e, he, hbe⟩ := List.any_eq_true.mp hk
      exact ⟨e, he, eq_of_beq hbe⟩
    rw [bump, if_pos hk]
    refine ⟨?_, ?_, ?_, ?_⟩
    · have hkeys : (acc.map (fun e => if e.1 == k then (e.1, e.2 + 1) else e)).map
          (fun e => e.1) = acc.map (fun e => e.1) := by
        rw [List.map_map]
        apply List.map_congr_left
        intro e _
        exact bump_entry_fst k e
      rw [hkeys]
      exact hnd
    · intro e' he'
      obtain ⟨e, he, heq⟩ := List.mem_map.mp he'
      by_cases hbe : (e.1 == k) = true
      · rw [if_pos hbe] at heq
        rw [← heq]
        dsimp only
        rw [hcount_app, if_pos (eq_of_beq hbe), hcnt e he]
      · rw [if_neg hbe] at heq
        rw [← heq, hcount_app, if_neg (fun hc => hbe (beq_iff_eq.mpr hc)), Nat.add_zero]
        exact hcnt e he
    · intro e' he'
      obtain ⟨e, he, heq⟩ := List.mem_map.mp he'
      have hfst : e'.1 = e.1 := by
        rw [← heq]
        exact bump_entry_fst k e
      rw [hfst]
      exact List.mem_append.mpr (Or.inl (hmem e he))
    · intro k2 hk2
      rcases List.mem_append.mp hk2 with h2 | h2
      · obtain ⟨e, he, heq⟩ := hcov k2 h2
        refine ⟨(if e.1 == k then (e.1, e.2 + 1) else e),
          List.mem_map_of_mem _ he, ?_⟩
        rw [bump_entry_fst k e]
        exact heq
      · obtain ⟨e, he, heq⟩ := hkmem
        refine ⟨(if e.1 == k then (e.1, e.2 + 1) else e),
          List.mem_map_of_mem _ he, ?_⟩
        rw [← List.mem_singleton.mp h2] at heq
        rw [bump_entry_fst k e]
        exact heq
  · have hknot : ∀ e ∈ acc, e.1 ≠ k := by
      intro e he hek
      exact hk (List.any_eq_true.mpr ⟨e, he, beq_iff_eq.mpr hek⟩)
    have hknotks : k ∉ ks := by
      intro hkk
      obtain ⟨e, he, heq⟩ := hcov k hkk
      exact hknot e he heq
    rw [bump, if_neg hk]
    refine ⟨?_, ?_, ?_, ?_⟩
    · rw [List.map_append]
      refine List.Nodup.append hnd (List.nodup_singleton _) ?_
      intro a ha1 ha2
      obtain ⟨e, he, heq⟩ := List.mem_map.mp ha1
      have ha2k : a = k := List.mem_singleton.mp ha2
      rw [ha2k] at heq
      exact hknot e he heq
    · intro e he
      rcases List.mem_append.mp he with h1 | h1
      · rw [hcount_app, if_neg (hknot e h1), Nat.add_zero]
        exact hcnt e h1
      · rw [List.mem_singleton.mp h1]
        dsimp only
        rw [hcount_app, if_pos rfl, List.count_eq_zero.mpr hknotks]
    · intro e he
      rcases List.mem_append.mp he with h1 | h1
      · exact List.mem_append.mpr (Or.inl (hmem e h1))
      · rw [List.mem_singleton.mp h1]
        exact List.mem_append.mpr (Or.inr (List.mem_singleton.mpr rfl))
    · intro k2 hk2
      rcases List.mem_append.mp hk2 with h2 | h2
      · obtain ⟨e, he, heq⟩ := hcov k2 h2
        exact ⟨e, List.mem_append.mpr (Or.inl he), heq⟩
      · exact ⟨(k, 1), List.mem_append.mpr (Or.inr (List.mem_singleton.mpr rfl)),
          (List.mem_singleton.mp h2).symm⟩

lemma bump_fold : ∀ (ks2 ks : List (String × String))
    (acc : List ((String × String) × ℕ)),
    bumpInv ks acc → bumpInv (ks ++ ks2) (ks2.foldl bump acc) := by
  intro ks2
  induction ks2 with
  | nil =>
    intro ks acc h
    rw [List.append_nil]
    exact h
  | cons k rest ih =>
    intro ks acc h
    have h3 := ih (ks ++ [k]) (bump acc k) (bump_step h)
    rw [List.append_assoc] at h3
    exact h3

lemma pair_counts_inv (rows : List (String × String)) :
    bumpInv (allPairs rows) (pair_counts rows) := by
  have h0 : bumpInv [] [] :=
    ⟨List.Pairwise.nil, by simp, by simp, by simp⟩
  have h1 := bump_fold (allPairs rows) [] [] h0
  rw [List.nil_append] at h1
  exact h1

lemma count_le_one_of_nodup {α : Type} [BEq α] [LawfulBEq α] {l : List α}
    (h : l.Nodup) (a : α) : l.count a ≤ 1 := by
  induction l with
  | nil => simp
  | cons x xs ih =>
    rw [List.count_cons]
    by_cases hax : (x == a) = true
    · have hnot : a ∉ xs := by
        rw [← eq_of_beq hax]
        exact (List.nodup_cons.mp h).1
      rw [if_pos hax, List.count_eq_zero.mpr hnot]
    · rw [if_neg hax, Nat.add_zero]
      exact ih (List.nodup_cons.mp h).2

lemma count_group_pairs {g : List String}
    (hs : g.Pairwise (fun a b => strLt a b = true)) (p : String × String) :
    (pairsOf g).count p = if p ∈ pairsOf g then 1 else 0 := by
  by_cases hm : p ∈ pairsOf g
  · rw [if_pos hm]
    have h1 : 0 < (pairsOf g).count p := List.count_pos_iff.mpr hm
    have h2 : (pairsOf g).count p ≤ 1 :=
      count_le_one_of_nodup (pairsOf_nodup hs) p
    omega
  · rw [if_neg hm]
    exact List.count_eq_zero.mpr hm

lemma count_allPairs (rows : List (String × String)) (p : String × String) :
    (allPairs rows).count p =
      ((pointGroups rows).filter (fun g => decide (p ∈ pairsOf g))).length := by
  have hgen : ∀ (gs : List (List String)),
      (∀ g ∈ gs, g.Pairwise (fun a b => strLt a b = true)) →
      ((gs.map pairsOf).flatten.count p =
        (gs.filter (fun g => decide (p ∈ pairsOf g))).length) := by
    intro gs
    induction gs with
    | nil => intro _; rfl
    | cons g rest ih =>
      intro hall
      rw [List.map_cons, List.flatten_cons, List.count_append,
        ih (fun g2 h2 => hall g2 (List.mem_cons_of_mem _ h2)),
        count_group_pairs (hall g (List.mem_cons_self _ _)) p, List.filter_cons]
      by_cases hm : p ∈ pairsOf g
      · rw [if_pos hm, if_pos (decide_eq_true hm), List.length_cons]
        omega
      · rw [if_neg hm, if_neg (by rw [decide_eq_false hm]; exact Bool.false_ne_true)]
        omega
  exact hgen _ (pointGroups_sorted rows)

lemma shared_eq (rows : List (String × String)) (p : String × String)
    (hlt : strLt p.1 p.2 = true) :
    ((pointGroups rows).filter (fun g => decide (p ∈ pairsOf g))).length =
      sharedPointCount rows p := by
  unfold sharedPointCount
  congr 1
  apply List.filter_congr
  intro g hg
  have hs := pointGroups_sorted rows g hg
  refine Bool.eq_iff_iff.mpr ?_
  rw [decide_eq_true_eq, Bool.and_eq_true, pairsOf_mem hs]
  constructor
  · rintro ⟨h1, h2, _⟩
    exact ⟨List.elem_eq_true_of_mem h1, List.elem_eq_true_of_mem h2⟩
  · rintro ⟨h1, h2⟩
    exact ⟨List.mem_of_elem_eq_true h1, List.mem_of_elem_eq_true h2, hlt⟩

lemma insertDesc_perm (x : (String × String) × ℕ)
    (l : List ((String × String) × ℕ)) : (insertDesc x l).Perm (x :: l) := by
  induction l with
  | nil => exact List.Perm.refl _
  | cons y ys ih =>
    by_cases h : y.2 < x.2
    · rw [insertDesc, if_pos h]
    · rw [insertDesc, if_neg h]
      exact (ih.cons y).trans (List.Perm.swap x y ys)

lemma sortDesc_perm_aux : ∀ (l acc : List ((String × String) × ℕ)),
    (l.foldl (fun acc x => insertDesc x acc) acc).Perm (acc ++ l) := by
  intro l
  induction l with
  | nil =>
    intro acc
    rw [List.append_nil]
    exact List.Perm.refl _
  | cons x xs ih =>
    intro acc
    have h1 := ih (insertDesc x acc)
    have h2 : (insertDesc x acc ++ xs).Perm ((x :: acc) ++ xs) :=
      (insertDesc_perm x acc).append_right xs
    have h4 : ((x :: acc) ++ xs).Perm (acc ++ x :: xs) := List.perm_middle.symm
    exact h1.trans (h2.trans h4)

lemma sortDesc_perm (l : List ((String × String) × ℕ)) :
    (sortDesc l).Perm l := by
  have h := sortDesc_perm_aux l []
  rw [List.nil_append] at h
  exact h

lemma insertDesc_sorted (x : (String × String) × ℕ)
    {l : List ((String × String) × ℕ)}
    (h : l.Pairwise (fun a b => b.2 ≤ a.2)) :
    (insertDesc x l).Pairwise (fun a b => b.2 ≤ a.2) := by
  induction l with
  | nil => exact List.pairwise_singleton _ _
  | cons y ys ih =>
    by_cases hxy : y.2 < x.2
    · rw [insertDesc, if_pos hxy]
      refine List.Pairwise.cons ?_ h
      intro z hz
      rcases List.mem_cons.mp hz with rfl | hz
      · omega
      · have := List.rel_of_pairwise_cons h hz
        omega
    · rw [insertDesc, if_neg hxy]
      refine List.Pairwise.cons ?_ (ih h.tail)
      intro z hz
      have hz2 : z ∈ x :: ys := (insertDesc_perm x ys).mem_iff.mp hz
      rcases List.mem_cons.mp hz2 with rfl | hz3
      · omega
      · exact List.rel_of_pairwise_cons h hz3

lemma sortDesc_sorted (l : List ((String × String) × ℕ)) :
    (sortDesc l).Pairwise (fun a b => b.2 ≤ a.2) := by
  have haux : ∀ (l2 acc : List ((String × String) × ℕ)),
      acc.Pairwise (fun a b => b.2 ≤ a.2) →
      (l2.foldl (fun acc x => insertDesc x acc) acc).Pairwise
        (fun a b => b.2 ≤ a.2) := by
    intro l2
    induction l2 with
    | nil => intro acc h; exact h
    | cons x xs ih => intro acc h; exact ih _ (insertDesc_sorted x h)
  exact haux l [] List.Pairwise.nil

/-- Counterexample rows for claim C7: point P1 sees images B and C,
point P2 sees images A and B. -/
def exRows7 : List (String × String) :=
  [("P1", "B"), ("P1", "C"), ("P2", "A"), ("P2", "B")]

/-- Counterexample to claim C7 as stated: on `exRows7` both pairs share
exactly one point, yet the output keeps (B,C) before (A,B) — the
first-encounter order of the counting dictionary — although the pair
(A,B) comes first lexicographically, contradicting the asserted
tie-break. -/
theorem claim7_counterexample :
    _find_image_pairs exRows7 = [("B", "C"), ("A", "B")] ∧
    sharedPointCount exRows7 ("B", "C") = sharedPointCount exRows7 ("A", "B") ∧
    pairLt ("A", "B") ("B", "C") = true := by
  refine ⟨by decide, by decide, by decide⟩

/-- Claim C7 (amended): `_find_image_pairs` returns each unordered pair
of serials co-occurring in at least one point exactly once, in the
canonical orientation (first component strictly below the second in
code-point order), sorted by descending shared-point count; the order
of pairs with equal counts is the first-encounter order of the counting
dictionary, not the lexicographic pair order. -/
theorem claim7_find_pairs (rows : List (String × String)) :
    (_find_image_pairs rows).Nodup ∧
    (∀ p, p ∈ _find_image_pairs rows ↔
      (strLt p.1 p.2 = true ∧ 0 < sharedPointCount rows p)) ∧
    (_find_image_pairs rows).Pairwise
      (fun p q => sharedPointCount rows q ≤ sharedPointCount rows p) := by
  obtain ⟨hnd, hcnt, hmemk, hcov⟩ := pair_counts_inv rows
  have hperm := sortDesc_perm (pair_counts rows)
  have hkeysperm : ((sortDesc (pair_counts rows)).map (fun e => e.1)).Perm
      ((pair_counts rows).map (fun e => e.1)) := hperm.map _
  have hmem_all : ∀ p : String × String, p ∈ allPairs rows ↔
      (strLt p.1 p.2 = true ∧ 0 < sharedPointCount rows p) := by
    intro p
    constructor
    · intro hp
      obtain ⟨l, hl, hpl⟩ := List.mem_flatten.mp hp
      obtain ⟨g, hg, hleq⟩ := List.mem_map.mp hl
      rw [← hleq] at hpl
      have hs := pointGroups_sorted rows g hg
      obtain ⟨h1, h2, hlt⟩ := (pairsOf_mem hs p).mp hpl
      refine ⟨hlt, ?_⟩
      unfold sharedPointCount
      apply List.length_pos.mpr
      intro hfil
      have hgf : g ∈ (pointGroups rows).filter
          (fun g => g.contains p.1 && g.contains p.2) :=
        List.mem_filter.mpr ⟨hg, by
          rw [Bool.and_eq_true]
          exact ⟨List.elem_eq_true_of_mem h1, List.elem_eq_true_of_mem h2⟩⟩
      rw [hfil] at hgf
      exact absurd hgf (List.not_mem_nil g)
    · rintro ⟨hlt, hpos⟩
      unfold sharedPointCount at hpos
      rw [List.length_pos] at hpos
      obtain ⟨g, hgf⟩ := List.exists_mem_of_ne_nil _ hpos
      obtain ⟨hg, hcond⟩ := List.mem_filter.mp hgf
      rw [Bool.and_eq_true] at hcond
      have hs := pointGroups_sorted rows g hg
      have hpg : p ∈ pairsOf g := (pairsOf_mem hs p).mpr
        ⟨List.mem_of_elem_eq_true hcond.1, List.mem_of_elem_eq_true hcond.2, hlt⟩
      exact List.mem_flatten.mpr ⟨pairsOf g, List.mem_map_of_mem _ hg, hpg⟩
  have hmem_keys : ∀ p : String × String,
      p ∈ (pair_counts rows).map (fun e => e.1) ↔ p ∈ allPairs rows := by
    intro p
    constructor
    · intro hp
      obtain ⟨e, he, heq⟩ := List.mem_map.mp hp
      rw [← heq]
      exact hmemk e he
    · intro hp
      obtain ⟨e, he, heq⟩ := hcov p hp
      exact List.mem_map.mpr ⟨e, he, heq⟩
  have key : ∀ e ∈ pair_counts rows, e.2 = sharedPointCount rows e.1 := by
    intro e he
    have hlt := ((hmem_all e.1).mp (hmemk e he)).1
    rw [hcnt e he, count_allPairs, shared_eq rows e.1 hlt]
  refine ⟨?_, ?_, ?_⟩
  · exact (hkeysperm.nodup_iff).mpr hnd
  · intro p
    show p ∈ (sortDesc (pair_counts rows)).map (fun e => e.1) ↔ _
    rw [hkeysperm.mem_iff, hmem_keys, hmem_all]
  · show ((sortDesc (pair_counts rows)).map (fun e => e.1)).Pairwise _
    rw [List.pairwise_map]
    refine (sortDesc_sorted (pair_counts rows)).imp_of_mem ?_
    intro a b ha hb hba
    rw [key a (hperm.subset ha), key b (hperm.subset hb)] at hba
    exact hba

/-- Witness for claim C7 (amended) at the concrete rows `exRows7`: the
pair (B, C) co-occurs in a point and is reported. -/
theorem claim7_find_pairs_witness :
    ("B", "C") ∈ _find_image_pairs exRows7 :=
  ((claim7_find_pairs exRows7).2.1 ("B", "C")).mpr ⟨by decide, by decide⟩

end Isistools
